import Mathlib

/-!
# Height map shadows: a shallow embedding of `cHeightMapShadow`

The C++ class `cHeightMapShadow` (HeightMapShadow.h / HeightMapShadow.cpp) is embedded as
functions on an explicit state record.

Conventions of the embedding:

* `float` in `SetDimensions` and in the sweep (`FindHeightMapShadows` and what it calls) is
  idealised as exact rational arithmetic (`ℚ`): no rounding, no NaN, no infinity.  Every
  comparison, assignment and arithmetic expression of the source is kept as written.
* `float` in the inline helpers `ShadowScale`, `LocationIsInBounds` and
  `ShadowDepth(const Vec2f&)` of HeightMapShadow.h is IEEE binary32 with round-to-nearest-even:
  a value is the rational it denotes, and every product, sum and quotient and every `int` to
  `float` conversion is followed by `roundF32`.  A rounded value of magnitude `2^128` or more
  stands for an infinity.  The difference of two map values is taken as in the sweep.
* `int` is `Int`.  The one place where the source multiplies two unbounded inputs
  (`mSamplesX * mSamplesY` in `SetDimensions`) wraps the product to 32 bits (`wrapInt`).
* `std::vector<float>` is `List ℚ`.  Every element access goes through `rd` / `wr`, which
  return `none` outside the buffer; an operation returns `none` as soon as the source would
  index outside a vector or ask `resize` for a negative count.
-/

namespace HMS

/-! ## Data model -/

/-- The three components `v[0]`, `v[1]`, `v[2]` of a `Vec3f`. -/
structure Vec3f where
  x : ℚ
  y : ℚ
  z : ℚ
deriving DecidableEq

/-- The struct `cRect`; the constructor takes `(l, t, r, b)` in this order. -/
structure cRect where
  left : Int
  top : Int
  right : Int
  bottom : Int
deriving DecidableEq

/-- The data members of `cHeightMapShadow`. -/
structure cHeightMapShadow where
  mHeightMap : List ℚ
  mShadowMap : List ℚ
  mSamplesX : Int
  mSamplesY : Int
  mCellWidth : ℚ
  mInvCellWidth : ℚ
  mMaxDepth : ℚ
  mEmptyShadowMap : Bool
  mShadowUpdateRect : cRect
  mShadowStrength : ℚ
  mCrest : List ℚ
deriving DecidableEq

def kDefaultShadowStrength : ℚ := 1

def kDefaultMaxUnshadowedDepth : ℚ := -1000

/-- Largest value of a 32-bit `int`. -/
def INT_MAX : Int := 2147483647

/-- The default constructor `cHeightMapShadow::cHeightMapShadow()`. -/
def cHeightMapShadow.construct : cHeightMapShadow where
  mHeightMap := []
  mShadowMap := []
  mSamplesX := 0
  mSamplesY := 0
  mCellWidth := 0
  mInvCellWidth := 0
  mMaxDepth := kDefaultMaxUnshadowedDepth
  mEmptyShadowMap := false
  mShadowUpdateRect := ⟨-1, -1, 0, 0⟩
  mShadowStrength := kDefaultShadowStrength
  mCrest := []

/-! ## Buffer access -/

/-- Read `buf[i]`; `none` when `i` is outside the buffer. -/
def rd (buf : List ℚ) (i : Int) : Option ℚ :=
  if 0 ≤ i then buf[i.toNat]? else none

/-- Write `buf[i] = v`; `none` when `i` is outside the buffer. -/
def wr (buf : List ℚ) (i : Int) (v : ℚ) : Option (List ℚ) :=
  if 0 ≤ i ∧ i.toNat < buf.length then some (buf.set i.toNat v) else none

/-- Modelled from the spec: `lerp` is declared in VL234f.h, which is not among the sources;
the spec gives it as linear interpolation, `lerp(a, b, s) = (1 - s) * a + s * b`. -/
def lerp (a b s : ℚ) : ℚ := (1 - s) * a + s * b

/-! ## SetDimensions, ClearShadowMap and the accessors -/

/-- The value of an `int` expression whose mathematical value is `n`: reduced modulo `2^32`
into the range `[-2^31, 2^31)`. -/
def wrapInt (n : Int) : Int := (n + 2147483648) % 4294967296 - 2147483648

/-- Method `SetDimensions(samplesX, samplesY, cellWidth, maxShadowDepth)`.  The source validates
nothing.  The element count handed to `resize` is the `int` product `mSamplesX * mSamplesY`,
which wraps to 32 bits; the call can only fail inside `resize`, when that count is negative (it
converts to a `size_t` above `max_size`). -/
def SetDimensions (s : cHeightMapShadow) (samplesX samplesY : Int) (cellWidth maxShadowDepth : ℚ) :
    Option cHeightMapShadow :=
  let count := wrapInt (samplesX * samplesY)
  if 0 ≤ count then
    some { s with
      mCellWidth := cellWidth
      mInvCellWidth := 1 / cellWidth
      mSamplesX := samplesX
      mSamplesY := samplesY
      mMaxDepth := maxShadowDepth
      mHeightMap := List.replicate count.toNat maxShadowDepth
      mShadowMap := List.replicate count.toNat maxShadowDepth }
  else none

/-- Method `ClearShadowMap()`: `fill(mShadowMap.begin(), mShadowMap.end(), mMaxDepth)` and set the flag. -/
def ClearShadowMap (s : cHeightMapShadow) : cHeightMapShadow :=
  { s with
    mShadowMap := List.replicate s.mShadowMap.length s.mMaxDepth
    mEmptyShadowMap := true }

/-- Method `ShadowDepth(int x, int y)`: `mShadowMap[idx] - mHeightMap[idx]` with `idx = x + y * mSamplesX`. -/
def ShadowDepth (s : cHeightMapShadow) (x y : Int) : Option ℚ := do
  let idx := x + y * s.mSamplesX
  let sh ← rd s.mShadowMap idx
  let ht ← rd s.mHeightMap idx
  pure (sh - ht)

/-- Assignment through the reference returned by `ShadowMap(vx, vy)`. -/
def setShadowMap (s : cHeightMapShadow) (vx vy : Int) (v : ℚ) : Option cHeightMapShadow := do
  let sm ← wr s.mShadowMap (vx + vy * s.mSamplesX) v
  pure { s with mShadowMap := sm }

/-! ## The sweep -/

/-- The variables a scan line works on: the crest, the shadow map, and the first and last
position of the line at which the shadow map was changed. -/
structure LineState where
  crest : List ℚ
  shadow : List ℚ
  firstUpdate : Int
  lastUpdate : Int
deriving DecidableEq

/-- Body of the inner loop for crest entry `i` and map element `cell` (`srcSpan[..]` and
`dstSpan[..]` address the same element of the two maps). -/
def shadowCell (heightMap : List ℚ) (crestDescent : ℚ) (cell i : Int) (st : LineState) :
    Option LineState := do
  let c ← rd st.crest i
  let src ← rd heightMap cell
  -- if we are in light, we become the new crest.
  let crest1 ← if c < src then wr st.crest i src else some st.crest
  let c1 ← rd crest1 i
  let dst ← rd st.shadow cell
  let upd ←
    if dst ≠ c1 then do
      let sh ← wr st.shadow cell c1
      pure (sh, (if st.firstUpdate < 0 then i else st.firstUpdate), i)
    else pure (st.shadow, st.firstUpdate, st.lastUpdate)
  -- adjust for the next row
  let crest2 ← wr crest1 i (c1 + crestDescent)
  pure ⟨crest2, upd.1, upd.2.1, upd.2.2⟩

/-- The inner loop `for (i = ..; i < n; i++)`, with `k` iterations left; `cell i` is the map
element that belongs to position `i` of the line. -/
def shadowLine (heightMap : List ℚ) (crestDescent : ℚ) (cell : Int → Int) :
    Nat → Int → LineState → Option LineState
  | 0, _, st => some st
  | k + 1, i, st => do
    let st1 ← shadowCell heightMap crestDescent (cell i) i st
    shadowLine heightMap crestDescent cell k (i + 1) st1

/-- The loop `for (x = 0; x < n - 1; x++) mCrest[x] = lerp(mCrest[x], mCrest[x + 1], crestOffset)`,
with `k` iterations left. -/
def shiftUp (crestOffset : ℚ) : Nat → Int → List ℚ → Option (List ℚ)
  | 0, _, crest => some crest
  | k + 1, i, crest => do
    let a ← rd crest i
    let b ← rd crest (i + 1)
    let crest1 ← wr crest i (lerp a b crestOffset)
    shiftUp crestOffset k (i + 1) crest1

/-- The loop `for (x = n - 1; x > 0; x--) mCrest[x] = lerp(mCrest[x], mCrest[x - 1], -crestOffset)`,
with `k` iterations left. -/
def shiftDown (crestOffset : ℚ) : Nat → Int → List ℚ → Option (List ℚ)
  | 0, _, crest => some crest
  | k + 1, i, crest => do
    let a ← rd crest i
    let b ← rd crest (i - 1)
    let crest1 ← wr crest i (lerp a b (-crestOffset))
    shiftDown crestOffset k (i - 1) crest1

/-- Shift the crest of length `n` by `crestOffset` for the next line, and extrapolate the
entry that has no neighbour. -/
def shiftCrest (crestOffset : ℚ) (n : Int) (crest : List ℚ) : Option (List ℚ) :=
  if crestOffset > 0 then do
    let c ← shiftUp crestOffset (n - 1).toNat 0 crest
    -- extrapolate to find last height.
    let a ← rd c (n - 2)
    let b ← rd c (n - 3)
    wr c (n - 1) (2 * a - b)
  else do
    let c ← shiftDown crestOffset (n - 1).toNat (n - 1) crest
    -- extrapolate to find first height.
    let a ← rd c 1
    let b ← rd c 2
    wr c 0 (2 * a - b)

/-- The variables of the outer loop. -/
structure SweepState where
  crest : List ℚ
  shadow : List ℚ
  updateRect : cRect
deriving DecidableEq

/-- Scan parameters after the direction has been normalised: first line, line increment,
`crestDescent` and `crestOffset`. -/
structure ScanParams where
  first : Int
  step : Int
  crestDescent : ℚ
  crestOffset : ℚ
deriving DecidableEq

/-- Always marching away from the light direction: keep the scan order when
`crestDescent < 0`, otherwise start from line `n - 1` and negate both parameters. -/
def scanParams (n : Int) (crestOffset crestDescent : ℚ) : ScanParams :=
  if crestDescent < 0 then ⟨0, 1, crestDescent, crestOffset⟩
  else ⟨n - 1, -1, -crestDescent, -crestOffset⟩

/-- Parameters of the row-based scan (scanning in y). -/
def rowParams (s : cHeightMapShadow) (sunDir : Vec3f) : ScanParams :=
  scanParams s.mSamplesY (-sunDir.x / sunDir.y) (s.mCellWidth * sunDir.z / sunDir.y)

/-- Parameters of the column-based scan (scanning in x). -/
def columnParams (s : cHeightMapShadow) (sunDir : Vec3f) : ScanParams :=
  scanParams s.mSamplesX (-sunDir.y / sunDir.x) (s.mCellWidth * sunDir.z / sunDir.x)

/-- Update of `updateRect` after row `y` (row-based scan). -/
def rowRect (r : cRect) (y firstUpdate lastUpdate : Int) : cRect :=
  if firstUpdate ≥ 0 then
    if r.top < 0 then ⟨firstUpdate, y, lastUpdate, y⟩
    else
      { r with
        bottom := y
        left := if firstUpdate < r.left then firstUpdate else r.left
        right := if lastUpdate > r.right then lastUpdate else r.right }
  else r

/-- Update of `updateRect` after column `x` (column-based scan). -/
def columnRect (r : cRect) (x firstUpdate lastUpdate : Int) : cRect :=
  if firstUpdate ≥ 0 then
    if r.left < 0 then ⟨x, firstUpdate, x, lastUpdate⟩
    else
      { r with
        right := x
        top := if firstUpdate < r.top then firstUpdate else r.top
        bottom := if lastUpdate > r.bottom then lastUpdate else r.bottom }
  else r

/-- The outer loop `for (y = beginY; y != endY; y += dY)` of the row-based scan, with `k`
rows left. -/
def rowSweep (heightMap : List ℚ) (w : Int) (p : ScanParams) :
    Nat → Int → SweepState → Option SweepState
  | 0, _, st => some st
  | k + 1, y, st => do
    let ls ← shadowLine heightMap p.crestDescent (fun x => y * w + x) w.toNat 0
      ⟨st.crest, st.shadow, -1, 0⟩
    let rect := rowRect st.updateRect y ls.firstUpdate ls.lastUpdate
    let crest ← shiftCrest p.crestOffset w ls.crest
    rowSweep heightMap w p k (y + p.step) ⟨crest, ls.shadow, rect⟩

/-- The outer loop `for (x = beginX; x != endX; x += dX)` of the column-based scan, with `k`
columns left. -/
def columnSweep (heightMap : List ℚ) (w h : Int) (p : ScanParams) :
    Nat → Int → SweepState → Option SweepState
  | 0, _, st => some st
  | k + 1, x, st => do
    let ls ← shadowLine heightMap p.crestDescent (fun y => x + y * w) h.toNat 0
      ⟨st.crest, st.shadow, -1, 0⟩
    let rect := columnRect st.updateRect x ls.firstUpdate ls.lastUpdate
    let crest ← shiftCrest p.crestOffset h ls.crest
    columnSweep heightMap w h p k (x + p.step) ⟨crest, ls.shadow, rect⟩

/-- Method `FindHeightMapShadowsRowBased(sunDir)`.  A negative `w` makes `mCrest.resize(w)` fail, and
with a negative `h` the row loop never meets its end value. -/
def FindHeightMapShadowsRowBased (s : cHeightMapShadow) (sunDir : Vec3f) :
    Option cHeightMapShadow :=
  let w := s.mSamplesX
  let h := s.mSamplesY
  if w < 0 ∨ h < 0 then none
  else do
    let p := rowParams s sunDir
    let st ← rowSweep s.mHeightMap w p h.toNat p.first
      ⟨List.replicate w.toNat s.mMaxDepth, s.mShadowMap, ⟨-1, -1, 0, 0⟩⟩
    pure { s with mShadowMap := st.shadow, mCrest := st.crest, mShadowUpdateRect := st.updateRect }

/-- Method `FindHeightMapShadowsColumnBased(sunDir)`.  A negative `h` makes `mCrest.resize(h)` fail, and
with a negative `w` the column loop never meets its end value. -/
def FindHeightMapShadowsColumnBased (s : cHeightMapShadow) (sunDir : Vec3f) :
    Option cHeightMapShadow :=
  let w := s.mSamplesX
  let h := s.mSamplesY
  if w < 0 ∨ h < 0 then none
  else do
    let p := columnParams s sunDir
    let st ← columnSweep s.mHeightMap w h p w.toNat p.first
      ⟨List.replicate h.toNat s.mMaxDepth, s.mShadowMap, ⟨-1, -1, 0, 0⟩⟩
    pure { s with mShadowMap := st.shadow, mCrest := st.crest, mShadowUpdateRect := st.updateRect }

/-- The test `sunDir[2] <= 0 || (absX < 1e-3 && absY < 1e-3)` of `FindHeightMapShadows`. -/
def noShadow (sunDir : Vec3f) : Prop :=
  sunDir.z ≤ 0 ∨ (|sunDir.x| < 1 / 1000 ∧ |sunDir.y| < 1 / 1000)

instance (sunDir : Vec3f) : Decidable (noShadow sunDir) :=
  inferInstanceAs (Decidable (sunDir.z ≤ 0 ∨ (|sunDir.x| < 1 / 1000 ∧ |sunDir.y| < 1 / 1000)))

/-- The test `absX < absY` of `FindHeightMapShadows`, which selects the row-based scan. -/
def rowScan (sunDir : Vec3f) : Prop := |sunDir.x| < |sunDir.y|

instance (sunDir : Vec3f) : Decidable (rowScan sunDir) :=
  inferInstanceAs (Decidable (|sunDir.x| < |sunDir.y|))

/-- Method `FindHeightMapShadows(sunDir)`: no sweep for a light that casts no shadow, otherwise
the row-based scan when `absX < absY` and the column-based scan when not. -/
def FindHeightMapShadows (s : cHeightMapShadow) (sunDir : Vec3f) : Option cHeightMapShadow :=
  if noShadow sunDir then
    -- no shadow...
    some (if !s.mEmptyShadowMap then ClearShadowMap s else s)
  else do
    let s1 ← if rowScan sunDir then FindHeightMapShadowsRowBased s sunDir
             else FindHeightMapShadowsColumnBased s sunDir
    pure { s1 with mEmptyShadowMap := false }

/-- Method `MakeShadowTestPattern()`: `dstSpan[x] = x / float(mSamplesX) * y / float(mSamplesY)` for
every cell; the empty flag is not touched. -/
def MakeShadowTestPattern (s : cHeightMapShadow) : Option cHeightMapShadow :=
  let pattern := (List.range s.mSamplesY.toNat).flatMap fun y =>
    (List.range s.mSamplesX.toNat).map fun x =>
      (x : ℚ) / (s.mSamplesX : ℚ) * (y : ℚ) / (s.mSamplesY : ℚ)
  if pattern.length ≤ s.mShadowMap.length then
    some { s with mShadowMap := pattern ++ s.mShadowMap.drop pattern.length }
  else none

/-! ## Rounding of `float` arithmetic -/

/-- Nearest integer to `q`, the even one of the two when `q` lies half way. -/
def roundHalfEven (q : ℚ) : Int :=
  if q - ⌊q⌋ < 1 / 2 then ⌊q⌋
  else if 1 / 2 < q - ⌊q⌋ then ⌊q⌋ + 1
  else if ⌊q⌋ % 2 = 0 then ⌊q⌋ else ⌊q⌋ + 1

/-- Position of the leading binary digit of `n`, found by halving `n` at most `fuel` times. -/
def log2Fuel : ℕ → ℕ → ℕ
  | 0, _ => 0
  | fuel + 1, n => if n < 2 then 0 else log2Fuel fuel (n / 2) + 1

/-- The integer `⌊log2 q⌋` of a positive rational `q`: the difference of the leading digit
positions of numerator and denominator, or one less. -/
def floorLog2 (q : ℚ) : Int :=
  let e := (log2Fuel q.num.natAbs q.num.natAbs : Int) - (log2Fuel q.den q.den : Int)
  if (2 : ℚ) ^ e ≤ q then e else e - 1

/-- Binary exponent of `q` in IEEE binary32: `⌊log2 |q|⌋`, and -126 throughout the subnormal
range. -/
def floatExp (q : ℚ) : Int := max (floorLog2 |q|) (-126)

/-- The `float` nearest to the exact value `q` (round to nearest, ties to even): a multiple of
`2 ^ (e - 23)` where `e` is the exponent of `q`.  A result of magnitude `2^128` or more stands
for an infinity. -/
def roundF32 (q : ℚ) : ℚ :=
  (roundHalfEven (q / (2 : ℚ) ^ (floatExp q - 23)) : ℚ) * (2 : ℚ) ^ (floatExp q - 23)

/-- Largest finite `float`, `2^128 - 2^104`. -/
def FLT_MAX : ℚ := 340282346638528859811704183484516925440

/-- A rounded value that stands for an infinity: its magnitude is `2^128` or more. -/
def isInfinite (q : ℚ) : Prop := 340282366920938463463374607431768211456 ≤ |q|

instance (q : ℚ) : Decidable (isInfinite q) :=
  inferInstanceAs (Decidable (340282366920938463463374607431768211456 ≤ |q|))

/-! ## Shadow queries and shading helpers -/

/-- The argument `const Vec2f& p` of `ShadowDepth`: the components `p[0]`, `p[1]`. -/
structure Vec2f where
  x : ℚ
  y : ℚ
deriving DecidableEq

/-- The function `std::max(a, b)`, which returns `(a < b) ? b : a`. -/
def stdMax (a b : ℚ) : ℚ := if a < b then b else a

/-- Method `ShadowScale(shadowDepth)`:
`1.0f / (1.0f + std::max(shadowDepth, 0.0f) * mShadowStrength)` in `float` arithmetic, for
finite `shadowDepth` and `mShadowStrength`.  An infinite product gives an infinite denominator,
and a quotient by an infinite denominator is 0.  The result is `none` when it is not a finite
number (the denominator is 0). -/
def ShadowScale (s : cHeightMapShadow) (shadowDepth : ℚ) : Option ℚ :=
  let product := roundF32 (stdMax shadowDepth 0 * s.mShadowStrength)
  let denominator := if isInfinite product then product else roundF32 (1 + product)
  if isInfinite denominator then some 0
  else if denominator = 0 then none
  else some (roundF32 (1 / denominator))

/-- The conversion `int(f)` of a float `f` inside the range of `int`: truncation towards
zero. -/
def truncInt (f : ℚ) : Int := if 0 ≤ f then ⌊f⌋ else ⌈f⌉

/-- Method `LocationIsInBounds(x, y)`.  The products `x * mInvCellWidth`, `y * mInvCellWidth`
are `float` products, and the `int` bounds `mSamplesX - 1`, `mSamplesY - 1` are converted to
`float` for the comparison. -/
def LocationIsInBounds (s : cHeightMapShadow) (x y : ℚ) : Bool :=
  let cx := roundF32 (x * s.mInvCellWidth)
  let cy := roundF32 (y * s.mInvCellWidth)
  decide (cx ≥ 0) && decide (cy ≥ 0) &&
    decide (cx ≤ roundF32 ((s.mSamplesX - 1 : Int) : ℚ)) &&
    decide (cy ≤ roundF32 ((s.mSamplesY - 1 : Int) : ℚ))

/-- Method `ShadowDepth(const Vec2f& p)`: depth of shadow at the given ground point.  The cell
is the truncation of the `float` products `p[0] * mInvCellWidth`, `p[1] * mInvCellWidth`; the
difference of the two map values is taken as in `ShadowDepth(int, int)`. -/
def ShadowDepthAt (s : cHeightMapShadow) (p : Vec2f) : Option ℚ := do
  let vx := truncInt (roundF32 (p.x * s.mInvCellWidth))
  let vy := truncInt (roundF32 (p.y * s.mInvCellWidth))
  let idx := vx + vy * s.mSamplesX
  let sh ← rd s.mShadowMap idx
  let ht ← rd s.mHeightMap idx
  pure (sh - ht)

/-! ## Descriptions of the loops used in the proofs -/

/-- A buffer given by its length and its entries. -/
def mkBuf (n : ℕ) (f : ℕ → ℚ) : List ℚ := (List.range n).map f

/-- Crest value after the terrain test: `if (crest < height) crest = height`. -/
def lit (c h : ℚ) : ℚ := if c < h then h else c

/-- The crest after `shiftCrest`, entry by entry in terms of the crest before it. -/
def shiftP (t : ℚ) (c : List ℚ) : List ℚ :=
  if t > 0 then
    mkBuf c.length fun j =>
      if j + 1 < c.length then lerp (c.getD j 0) (c.getD (j + 1) 0) t
      else 2 * lerp (c.getD (c.length - 2) 0) (c.getD (c.length - 1) 0) t
        - lerp (c.getD (c.length - 3) 0) (c.getD (c.length - 2) 0) t
  else
    mkBuf c.length fun j =>
      if 0 < j then lerp (c.getD j 0) (c.getD (j - 1) 0) (-t)
      else 2 * lerp (c.getD 1 0) (c.getD 0 0) (-t) - lerp (c.getD 2 0) (c.getD 1 0) (-t)

/-- The crest after one scan line has been shadowed against heights `hts` and lowered by `d`. -/
def lineP (d : ℚ) (hts : ℕ → ℚ) (c : List ℚ) : List ℚ :=
  mkBuf c.length fun j => lit (c.getD j 0) (hts j) + d

/-- One scan line: shadow, lower, shift. -/
def crestStep (d t : ℚ) (hts : ℕ → ℚ) (c : List ℚ) : List ℚ :=
  shiftP t (lineP d hts c)

/-- The crest that enters the `m`-th scanned line, when `hts m` are the heights of that line. -/
def crestSeq (d t : ℚ) (hts : ℕ → ℕ → ℚ) (c0 : List ℚ) : ℕ → List ℚ
  | 0 => c0
  | m + 1 => crestStep d t (hts m) (crestSeq d t hts c0 m)

/-- The outer loop of either scan: `cell l j` is the map element at position `j` of line `l`,
`rect` the update of the rectangle, `n` the length of a line. -/
def sweepLoop (heightMap : List ℚ) (p : ScanParams) (cell : Int → Int → Int)
    (rect : cRect → Int → Int → Int → cRect) (n : Int) :
    Nat → Int → SweepState → Option SweepState
  | 0, _, st => some st
  | k + 1, l, st => do
    let ls ← shadowLine heightMap p.crestDescent (cell l) n.toNat 0 ⟨st.crest, st.shadow, -1, 0⟩
    let r := rect st.updateRect l ls.firstUpdate ls.lastUpdate
    let crest ← shiftCrest p.crestOffset n ls.crest
    sweepLoop heightMap p cell rect n k (l + p.step) ⟨crest, ls.shadow, r⟩

/-- The state is a `wn × hn` grid: both maps hold `wn * hn` samples. -/
def Grid (s : cHeightMapShadow) (wn hn : ℕ) : Prop :=
  s.mSamplesX = (wn : Int) ∧ s.mSamplesY = (hn : Int) ∧
    s.mHeightMap.length = wn * hn ∧ s.mShadowMap.length = wn * hn

/-- Scan parameters of the scan that `FindHeightMapShadows` selects. -/
def sweepParams (s : cHeightMapShadow) (sunDir : Vec3f) : ScanParams :=
  if rowScan sunDir then rowParams s sunDir else columnParams s sunDir

/-- Length of a scan line (and of the crest). -/
def lineLen (s : cHeightMapShadow) (sunDir : Vec3f) : ℕ :=
  if rowScan sunDir then s.mSamplesX.toNat else s.mSamplesY.toNat

/-- Number of scan lines. -/
def lineCount (s : cHeightMapShadow) (sunDir : Vec3f) : ℕ :=
  if rowScan sunDir then s.mSamplesY.toNat else s.mSamplesX.toNat

/-- Row (or column) number of the `m`-th scanned line. -/
def lineIdx (s : cHeightMapShadow) (sunDir : Vec3f) (m : ℕ) : ℕ :=
  if (sweepParams s sunDir).step = 1 then m else lineCount s sunDir - 1 - m

/-- Map index of position `j` of the `m`-th scanned line. -/
def cellIdx (s : cHeightMapShadow) (sunDir : Vec3f) (m j : ℕ) : ℕ :=
  if rowScan sunDir then lineIdx s sunDir m * s.mSamplesX.toNat + j
  else lineIdx s sunDir m + j * s.mSamplesX.toNat

/-- The crest that enters the `m`-th scanned line of the sweep. -/
def sweepCrest (s : cHeightMapShadow) (sunDir : Vec3f) (m : ℕ) : List ℚ :=
  crestSeq (sweepParams s sunDir).crestDescent (sweepParams s sunDir).crestOffset
    (fun m j => s.mHeightMap.getD (cellIdx s sunDir m j) 0)
    (List.replicate (lineLen s sunDir) s.mMaxDepth) m

/-- The caller filling the public member `mHeightMap` with `heights` (one value per sample). -/
def fillHeightMap (s : cHeightMapShadow) (heights : List ℚ) : Option cHeightMapShadow :=
  if heights.length = s.mHeightMap.length then some { s with mHeightMap := heights } else none

/-- A freshly constructed object after `SetDimensions(w, h, cellWidth, maxDepth)` whose height
map has then been filled with `heights`. -/
def gridWith (w h : Int) (cellWidth maxDepth : ℚ) (heights : List ℚ) : Option cHeightMapShadow :=
  (SetDimensions cHeightMapShadow.construct w h cellWidth maxDepth).bind fun s =>
    fillHeightMap s heights

instance (s : cHeightMapShadow) (wn hn : ℕ) : Decidable (Grid s wn hn) :=
  inferInstanceAs (Decidable (s.mSamplesX = (wn : Int) ∧ s.mSamplesY = (hn : Int) ∧
    s.mHeightMap.length = wn * hn ∧ s.mShadowMap.length = wn * hn))

/-- Scan-line number (in scan order) of the cell `(x, y)`. -/
def lineOf (s : cHeightMapShadow) (sunDir : Vec3f) (x y : ℕ) : ℕ :=
  lineIdx s sunDir (if rowScan sunDir then y else x)

/-- Position of the cell `(x, y)` on its scan line. -/
def posOf (sunDir : Vec3f) (x y : ℕ) : ℕ :=
  if rowScan sunDir then x else y

/-- How a crest entry can respond when the height of one cell is raised: it stays the `same`,
it can only go `up` (or stay), or nothing is known about it (`free`). -/
inductive Infl where
  | same
  | up
  | free
deriving DecidableEq

/-- Response of the product `w * c` when `c` responds as `i`. -/
def Infl.term (w : ℚ) (i : Infl) : Infl :=
  if w = 0 then Infl.same
  else match i with
    | Infl.same => Infl.same
    | Infl.up => if 0 < w then Infl.up else Infl.free
    | Infl.free => Infl.free

/-- Response of a sum of two values that respond as `a` and `b`. -/
def Infl.join (a b : Infl) : Infl :=
  match a, b with
  | Infl.same, Infl.same => Infl.same
  | Infl.same, Infl.up => Infl.up
  | Infl.up, Infl.same => Infl.up
  | Infl.up, Infl.up => Infl.up
  | _, _ => Infl.free

/-- Response of the crest entry of the raised cell after its terrain test: what stayed the same
can go up. -/
def Infl.raise (i : Infl) : Infl :=
  match i with
  | Infl.free => Infl.free
  | _ => Infl.up

/-- A list of responses given by its length and its entries. -/
def mkInfl (n : ℕ) (f : ℕ → Infl) : List Infl := (List.range n).map f

/-- Responses of the crest after the terrain test and the descent of one scan line; `hit` says
that the raised cell lies on this line, `j0` is its position. -/
def inflLine (hit : Bool) (j0 : ℕ) (σ : List Infl) : List Infl :=
  mkInfl σ.length fun j =>
    if hit = true ∧ j = j0 then (σ.getD j Infl.free).raise else σ.getD j Infl.free

/-- Responses of the crest after `shiftCrest` with offset `t`.  An interpolated entry is
`(1 - t) * c[j] + t * c[j+1]` (resp. `(1 + t) * c[j] - t * c[j-1]`).  The extrapolated entry
`2 * c2[n-2] - c2[n-3]` of the new crest `c2` is, in terms of the crest `c` before the shift,
`(2 - 3t) * c[n-2] + 2t * c[n-1] - (1 - t) * c[n-3]`
(resp. `(2 + 3t) * c[1] - 2t * c[0] - (1 + t) * c[2]`). -/
def inflShift (t : ℚ) (τ : List Infl) : List Infl :=
  if t > 0 then
    mkInfl τ.length fun j =>
      if j + 1 < τ.length then
        (Infl.term (1 - t) (τ.getD j Infl.free)).join (Infl.term t (τ.getD (j + 1) Infl.free))
      else
        ((Infl.term (2 - 3 * t) (τ.getD (τ.length - 2) Infl.free)).join
          (Infl.term (2 * t) (τ.getD (τ.length - 1) Infl.free))).join
          (Infl.term (-(1 - t)) (τ.getD (τ.length - 3) Infl.free))
  else
    mkInfl τ.length fun j =>
      if 0 < j then
        (Infl.term (1 + t) (τ.getD j Infl.free)).join (Infl.term (-t) (τ.getD (j - 1) Infl.free))
      else
        ((Infl.term (2 + 3 * t) (τ.getD 1 Infl.free)).join
          (Infl.term (-(2 * t)) (τ.getD 0 Infl.free))).join
          (Infl.term (-(1 + t)) (τ.getD 2 Infl.free))

/-- Responses of the crest that enters the `m`-th scanned line, when the raised cell is at
position `j0` of the `m0`-th scanned line; `t` is the crest offset and `n` the line length. -/
def inflSeq (t : ℚ) (n m0 j0 : ℕ) : ℕ → List Infl
  | 0 => List.replicate n Infl.same
  | m + 1 => inflShift t (inflLine (decide (m = m0)) j0 (inflSeq t n m0 j0 m))

/-- Response of the crest entry that meets the cell `(x, y)` when the height of the cell
`(x0, y0)` is raised. -/
def spikeInfl (s : cHeightMapShadow) (sunDir : Vec3f) (x0 y0 x y : ℕ) : Infl :=
  (inflSeq (sweepParams s sunDir).crestOffset (lineLen s sunDir)
    (lineOf s sunDir x0 y0) (posOf sunDir x0 y0) (lineOf s sunDir x y)).getD
    (posOf sunDir x y) Infl.free

/-! # Theorems -/

/-! ## Buffers and loops -/

theorem rd_nat (buf : List ℚ) (n : ℕ) : rd buf (n : Int) = buf[n]? := by
  simp [rd]

theorem rd_of_lt (buf : List ℚ) (n : ℕ) (h : n < buf.length) :
    rd buf (n : Int) = some (buf.getD n 0) := by
  simp [rd, List.getD_eq_getElem?_getD, List.getElem?_eq_getElem h]

theorem wr_of_lt (buf : List ℚ) (n : ℕ) (v : ℚ) (h : n < buf.length) :
    wr buf (n : Int) v = some (buf.set n v) := by
  simp [wr, h]

theorem getD_set (buf : List ℚ) (n j : ℕ) (v : ℚ) :
    (buf.set n v).getD j 0 = if n = j ∧ n < buf.length then v else buf.getD j 0 := by
  simp only [List.getD_eq_getElem?_getD, List.getElem?_set]
  by_cases hnj : n = j
  · subst hnj
    by_cases hl : n < buf.length
    · simp [hl]
    · simp [hl, List.getElem?_eq_none (Nat.le_of_not_lt hl)]
  · simp [hnj]

theorem getD_set_self (buf : List ℚ) (n : ℕ) (v : ℚ) (h : n < buf.length) :
    (buf.set n v).getD n 0 = v := by
  simp [getD_set, h]

theorem getD_set_ne (buf : List ℚ) (n j : ℕ) (v : ℚ) (h : n ≠ j) :
    (buf.set n v).getD j 0 = buf.getD j 0 := by
  simp [getD_set, h]

theorem buf_ext (a b : List ℚ) (hl : a.length = b.length)
    (h : ∀ j, j < a.length → a.getD j 0 = b.getD j 0) : a = b := by
  apply List.ext_getElem? 
  intro j
  by_cases hj : j < a.length
  · have hj2 : j < b.length := hl ▸ hj
    have := h j hj
    simp only [List.getD_eq_getElem?_getD, List.getElem?_eq_getElem hj, List.getElem?_eq_getElem hj2, Option.getD_some] at this
    simp [List.getElem?_eq_getElem hj, List.getElem?_eq_getElem hj2, this]
  · have hj2 : ¬ j < b.length := hl ▸ hj
    simp [List.getElem?_eq_none (Nat.le_of_not_lt hj), List.getElem?_eq_none (Nat.le_of_not_lt hj2)]

theorem set_getD_self (buf : List ℚ) (n : ℕ) (h : n < buf.length) :
    buf.set n (buf.getD n 0) = buf := by
  apply buf_ext
  · simp
  · intro j _
    by_cases hnj : n = j
    · subst hnj; simp [getD_set, h]
    · simp [getD_set, hnj]

theorem mkBuf_length (n : ℕ) (f : ℕ → ℚ) : (mkBuf n f).length = n := by
  simp [mkBuf]

theorem mkBuf_getD (n : ℕ) (f : ℕ → ℚ) (j : ℕ) (h : j < n) : (mkBuf n f).getD j 0 = f j := by
  simp [mkBuf, List.getD_eq_getElem?_getD, List.getElem?_map, List.getElem?_range h]

theorem shadowCell_eq (hm : List ℚ) (d : ℚ) (cell i : ℕ) (st : LineState)
    (hi : i < st.crest.length) (hc : cell < hm.length) (hs : cell < st.shadow.length) :
    ∃ fu lu, shadowCell hm d (cell : Int) (i : Int) st =
      some ⟨st.crest.set i (lit (st.crest.getD i 0) (hm.getD cell 0) + d),
            st.shadow.set cell (lit (st.crest.getD i 0) (hm.getD cell 0)), fu, lu⟩ := by
  unfold shadowCell
  rw [rd_of_lt _ _ hi, rd_of_lt _ _ hc, rd_of_lt _ _ hs]
  by_cases hlt : st.crest.getD i 0 < hm.getD cell 0
  · have hi2 : i < (st.crest.set i (hm.getD cell 0)).length := by simpa using hi
    simp only [Option.bind_eq_bind, Option.some_bind, hlt, if_true, wr_of_lt _ _ _ hi,
      rd_of_lt _ _ hi2, getD_set_self _ _ _ hi, wr_of_lt _ _ _ hi2, List.set_set, lit]
    by_cases hne : st.shadow.getD cell 0 ≠ hm.getD cell 0
    · rw [if_pos hne, wr_of_lt _ _ _ hs]
      simp only [Option.pure_def, Option.some_bind]
      exact ⟨_, _, rfl⟩
    · rw [if_neg hne]
      simp only [Option.pure_def, Option.some_bind]
      have : st.shadow.set cell (hm.getD cell 0) = st.shadow := by
        have h2 := set_getD_self st.shadow cell hs
        rw [not_not] at hne
        rw [← hne]; exact h2
      rw [this]
      exact ⟨_, _, rfl⟩
  · simp only [Option.bind_eq_bind, Option.some_bind, hlt, if_false, rd_of_lt _ _ hi,
      wr_of_lt _ _ _ hi, lit]
    by_cases hne : st.shadow.getD cell 0 ≠ st.crest.getD i 0
    · rw [if_pos hne, wr_of_lt _ _ _ hs]
      simp only [Option.pure_def, Option.some_bind]
      exact ⟨_, _, rfl⟩
    · rw [if_neg hne]
      simp only [Option.pure_def, Option.some_bind]
      have : st.shadow.set cell (st.crest.getD i 0) = st.shadow := by
        have h2 := set_getD_self st.shadow cell hs
        rw [not_not] at hne
        rw [← hne]; exact h2
      rw [this]
      exact ⟨_, _, rfl⟩

theorem shadowLine_spec (hm : List ℚ) (d : ℚ) (cell : Int → Int) (cellN : ℕ → ℕ) (k : ℕ) :
    ∀ (i : ℕ) (st : LineState), i + k ≤ st.crest.length →
    (∀ j, i ≤ j → j < i + k →
      cell (j : Int) = (cellN j : Int) ∧ cellN j < hm.length ∧ cellN j < st.shadow.length) →
    (∀ j j2, i ≤ j → j < i + k → i ≤ j2 → j2 < i + k → cellN j = cellN j2 → j = j2) →
    ∃ st2, shadowLine hm d cell k (i : Int) st = some st2 ∧
      st2.crest.length = st.crest.length ∧ st2.shadow.length = st.shadow.length ∧
      (∀ j, st2.crest.getD j 0 =
        if i ≤ j ∧ j < i + k then lit (st.crest.getD j 0) (hm.getD (cellN j) 0) + d
        else st.crest.getD j 0) ∧
      (∀ j, i ≤ j → j < i + k →
        st2.shadow.getD (cellN j) 0 = lit (st.crest.getD j 0) (hm.getD (cellN j) 0)) ∧
      (∀ n, (∀ j, i ≤ j → j < i + k → cellN j ≠ n) → st2.shadow.getD n 0 = st.shadow.getD n 0) := by
  induction k with
  | zero =>
    intro i st _ _ _
    refine ⟨st, rfl, rfl, rfl, ?_, ?_, ?_⟩
    · intro j
      have : ¬ (i ≤ j ∧ j < i + 0) := by omega
      rw [if_neg this]
    · intro j h1 h2; omega
    · intro n _; rfl
  | succ k ih =>
    intro i st hlen hcell hinj
    obtain ⟨hc1, hc2, hc3⟩ := hcell i (le_refl _) (by omega)
    obtain ⟨fu, lu, hstep⟩ := shadowCell_eq hm d (cellN i) i st (by omega) hc2 hc3
    have hcast : ((i : Int) + 1) = ((i + 1 : ℕ) : Int) := by push_cast; rfl
    obtain ⟨st2, hrun, hl1, hl2, hcr, hsh, hun⟩ := ih (i + 1)
      ⟨st.crest.set i (lit (st.crest.getD i 0) (hm.getD (cellN i) 0) + d),
        st.shadow.set (cellN i) (lit (st.crest.getD i 0) (hm.getD (cellN i) 0)), fu, lu⟩
      (by simp; omega)
      (by
        intro j h1 h2
        obtain ⟨a, b, c⟩ := hcell j (by omega) (by omega)
        exact ⟨a, b, by simpa using c⟩)
      (by
        intro j j2 h1 h2 h3 h4 h5
        exact hinj j j2 (by omega) (by omega) (by omega) (by omega) h5)
    refine ⟨st2, ?_, ?_, ?_, ?_, ?_, ?_⟩
    · show (shadowCell hm d (cell i) i st).bind _ = _
      rw [hc1, hstep, Option.some_bind, hcast]
      exact hrun
    · simpa using hl1
    · simpa using hl2
    · intro j
      rw [hcr j]
      by_cases hj : i + 1 ≤ j ∧ j < i + 1 + k
      · have hj2 : i ≤ j ∧ j < i + (k + 1) := by omega
        have hne : i ≠ j := by omega
        simp only [hj, hj2, and_self, if_true, getD_set_ne _ _ _ _ hne]
      · by_cases hij : i = j
        · subst hij
          have hj2 : i ≤ i ∧ i < i + (k + 1) := by omega
          have hil : i < st.crest.length := by omega
          simp only [hj, if_false, hj2, and_self, if_true, getD_set_self _ _ _ hil]
        · have hj2 : ¬ (i ≤ j ∧ j < i + (k + 1)) := by omega
          simp only [hj, if_false, hj2, getD_set_ne _ _ _ _ hij]
    · intro j h1 h2
      by_cases hij : i = j
      · subst hij
        rw [hun (cellN i)]
        · exact getD_set_self _ _ _ hc3
        · intro j h3 h4 h5
          have := hinj j i (by omega) (by omega) (le_refl _) (by omega) h5
          omega
      · rw [hsh j (by omega) (by omega)]
        have hne : i ≠ j := hij
        simp only [getD_set_ne _ _ _ _ hne]
    · intro n hn
      rw [hun n (fun j h1 h2 => hn j (by omega) (by omega))]
      exact getD_set_ne _ _ _ _ (hn i (le_refl _) (by omega))

theorem shiftUp_spec (t : ℚ) (k : ℕ) :
    ∀ (i : ℕ) (c : List ℚ), i + k < c.length →
    ∃ c2, shiftUp t k (i : Int) c = some c2 ∧ c2.length = c.length ∧
      ∀ j, c2.getD j 0 =
        if i ≤ j ∧ j < i + k then lerp (c.getD j 0) (c.getD (j + 1) 0) t else c.getD j 0 := by
  induction k with
  | zero =>
    intro i c _
    refine ⟨c, rfl, rfl, ?_⟩
    intro j
    have : ¬ (i ≤ j ∧ j < i + 0) := by omega
    rw [if_neg this]
  | succ k ih =>
    intro i c hlen
    have hcast : ((i : Int) + 1) = ((i + 1 : ℕ) : Int) := by push_cast; rfl
    obtain ⟨c2, hrun, hl, hc⟩ := ih (i + 1)
      (c.set i (lerp (c.getD i 0) (c.getD (i + 1) 0) t)) (by simp; omega)
    refine ⟨c2, ?_, ?_, ?_⟩
    · show ((rd c i).bind fun a => (rd c (i + 1)).bind fun b =>
        (wr c i (lerp a b t)).bind fun c1 => shiftUp t k (i + 1) c1) = _
      rw [hcast, rd_of_lt c i (by omega), rd_of_lt c (i + 1) (by omega)]
      simp only [Option.some_bind]
      rw [wr_of_lt c i _ (by omega)]
      exact hrun
    · simpa using hl
    · intro j
      rw [hc j]
      by_cases hj : i + 1 ≤ j ∧ j < i + 1 + k
      · have hj2 : i ≤ j ∧ j < i + (k + 1) := by omega
        have h1 : i ≠ j := by omega
        have h2 : i ≠ j + 1 := by omega
        rw [if_pos hj, if_pos hj2, getD_set_ne _ _ _ _ h1, getD_set_ne _ _ _ _ h2]
      · by_cases hij : i = j
        · subst hij
          have hj2 : i ≤ i ∧ i < i + (k + 1) := by omega
          rw [if_neg hj, if_pos hj2, getD_set_self _ _ _ (by omega)]
        · have hj2 : ¬ (i ≤ j ∧ j < i + (k + 1)) := by omega
          rw [if_neg hj, if_neg hj2, getD_set_ne _ _ _ _ hij]

theorem shiftDown_spec (t : ℚ) (k : ℕ) :
    ∀ (i : ℕ) (c : List ℚ), k ≤ i → i < c.length →
    ∃ c2, shiftDown t k (i : Int) c = some c2 ∧ c2.length = c.length ∧
      ∀ j, c2.getD j 0 =
        if i < j + k ∧ j ≤ i then lerp (c.getD j 0) (c.getD (j - 1) 0) (-t) else c.getD j 0 := by
  induction k with
  | zero =>
    intro i c _ _
    refine ⟨c, rfl, rfl, ?_⟩
    intro j
    have : ¬ (i < j + 0 ∧ j ≤ i) := by omega
    rw [if_neg this]
  | succ k ih =>
    intro i c hk hlen
    have hcast : ((i : Int) - 1) = ((i - 1 : ℕ) : Int) := by omega
    obtain ⟨c2, hrun, hl, hc⟩ := ih (i - 1)
      (c.set i (lerp (c.getD i 0) (c.getD (i - 1) 0) (-t))) (by omega) (by simp; omega)
    refine ⟨c2, ?_, ?_, ?_⟩
    · show ((rd c i).bind fun a => (rd c (i - 1)).bind fun b =>
        (wr c i (lerp a b (-t))).bind fun c1 => shiftDown t k (i - 1) c1) = _
      rw [hcast, rd_of_lt c i (by omega), rd_of_lt c (i - 1) (by omega)]
      simp only [Option.some_bind]
      rw [wr_of_lt c i _ (by omega)]
      exact hrun
    · simpa using hl
    · intro j
      rw [hc j]
      by_cases hj : i - 1 < j + k ∧ j ≤ i - 1
      · have hj2 : i < j + (k + 1) ∧ j ≤ i := by omega
        have h1 : i ≠ j := by omega
        have h2 : i ≠ j - 1 := by omega
        rw [if_pos hj, if_pos hj2, getD_set_ne _ _ _ _ h1, getD_set_ne _ _ _ _ h2]
      · by_cases hij : i = j
        · subst hij
          have hj2 : i < i + (k + 1) ∧ i ≤ i := by omega
          rw [if_neg hj, if_pos hj2, getD_set_self _ _ _ (by omega)]
        · have hj2 : ¬ (i < j + (k + 1) ∧ j ≤ i) := by omega
          rw [if_neg hj, if_neg hj2, getD_set_ne _ _ _ _ hij]

theorem shiftCrest_eq (t : ℚ) (n : ℕ) (c : List ℚ) (hn : 3 ≤ n) (hc : c.length = n) :
    shiftCrest t (n : Int) c = some (shiftP t c) := by
  unfold shiftCrest shiftP
  by_cases ht : t > 0
  · rw [if_pos ht, if_pos ht]
    obtain ⟨c2, hrun, hl, hv⟩ := shiftUp_spec t (n - 1) 0 c (by omega)
    have e1 : ((n : Int) - 1).toNat = n - 1 := by omega
    have e2 : ((n : Int) - 2) = ((n - 2 : ℕ) : Int) := by omega
    have e3 : ((n : Int) - 3) = ((n - 3 : ℕ) : Int) := by omega
    have e4 : ((n : Int) - 1) = ((n - 1 : ℕ) : Int) := by omega
    have hrun2 : shiftUp t (n - 1) 0 c = some c2 := by exact_mod_cast hrun
    rw [e1, hrun2]
    simp only [Option.bind_eq_bind, Option.some_bind]
    rw [e2, e3, e4, rd_of_lt c2 (n - 2) (by omega), rd_of_lt c2 (n - 3) (by omega)]
    simp only [Option.some_bind]
    rw [wr_of_lt c2 (n - 1) _ (by omega)]
    congr 1
    apply buf_ext
    · simp [mkBuf_length, hl]
    · intro j hj
      have hj2 : j < c.length := by simpa [hl] using hj
      rw [mkBuf_getD _ _ _ hj2, getD_set]
      by_cases hjn : n - 1 = j
      · have h1 : n - 1 = j ∧ n - 1 < c2.length := ⟨hjn, by omega⟩
        have h2 : ¬ (j + 1 < c.length) := by omega
        have h3 : 0 ≤ n - 2 ∧ n - 2 < 0 + (n - 1) := by omega
        have h4 : 0 ≤ n - 3 ∧ n - 3 < 0 + (n - 1) := by omega
        rw [if_pos h1, if_neg h2, hv (n - 2), hv (n - 3), if_pos h3, if_pos h4, hc]
        have e5 : n - 2 + 1 = n - 1 := by omega
        have e6 : n - 3 + 1 = n - 2 := by omega
        rw [e5, e6]
      · have h1 : ¬ (n - 1 = j ∧ n - 1 < c2.length) := by omega
        have h2 : j + 1 < c.length := by omega
        have h3 : 0 ≤ j ∧ j < 0 + (n - 1) := by omega
        rw [if_neg h1, if_pos h2, hv j, if_pos h3]
  · rw [if_neg ht, if_neg ht]
    obtain ⟨c2, hrun, hl, hv⟩ := shiftDown_spec t (n - 1) (n - 1) c (le_refl _) (by omega)
    have e1 : ((n : Int) - 1).toNat = n - 1 := by omega
    have e4 : ((n : Int) - 1) = ((n - 1 : ℕ) : Int) := by omega
    rw [e1, e4, hrun]
    simp only [Option.bind_eq_bind, Option.some_bind]
    have r1 := rd_of_lt c2 1 (by omega)
    have r2 := rd_of_lt c2 2 (by omega)
    have w0 := wr_of_lt c2 0 (2 * c2.getD 1 0 - c2.getD 2 0) (by omega)
    simp only [Nat.cast_one, Nat.cast_ofNat, Nat.cast_zero] at r1 r2 w0
    rw [r1, r2]
    simp only [Option.some_bind]
    rw [w0]
    congr 1
    apply buf_ext
    · simp [mkBuf_length, hl]
    · intro j hj
      have hj2 : j < c.length := by simpa [hl] using hj
      rw [mkBuf_getD _ _ _ hj2, getD_set]
      by_cases hj0 : 0 = j
      · have h1 : 0 = j ∧ 0 < c2.length := ⟨hj0, by omega⟩
        have h2 : ¬ (0 < j) := by omega
        have h3 : n - 1 < 1 + (n - 1) ∧ 1 ≤ n - 1 := by omega
        have h4 : n - 1 < 2 + (n - 1) ∧ 2 ≤ n - 1 := by omega
        rw [if_pos h1, if_neg h2, hv 1, hv 2, if_pos h3, if_pos h4]
      · have h1 : ¬ (0 = j ∧ 0 < c2.length) := by omega
        have h2 : 0 < j := by omega
        have h3 : n - 1 < j + (n - 1) ∧ j ≤ n - 1 := by omega
        rw [if_neg h1, if_pos h2, hv j, if_pos h3]

theorem rowSweep_eq (hm : List ℚ) (w : Int) (p : ScanParams) (k : ℕ) :
    ∀ (y : Int) (st : SweepState),
      rowSweep hm w p k y st = sweepLoop hm p (fun y x => y * w + x) rowRect w k y st := by
  induction k with
  | zero => intro y st; rfl
  | succ k ih =>
    intro y st
    simp only [rowSweep, sweepLoop, ih]

theorem columnSweep_eq (hm : List ℚ) (w h : Int) (p : ScanParams) (k : ℕ) :
    ∀ (x : Int) (st : SweepState),
      columnSweep hm w h p k x st = sweepLoop hm p (fun x y => x + y * w) columnRect h k x st := by
  induction k with
  | zero => intro y st; rfl
  | succ k ih =>
    intro y st
    simp only [columnSweep, sweepLoop, ih]

theorem lineP_length (d : ℚ) (hts : ℕ → ℚ) (c : List ℚ) : (lineP d hts c).length = c.length := by
  simp [lineP, mkBuf_length]

theorem shiftP_length (t : ℚ) (c : List ℚ) : (shiftP t c).length = c.length := by
  unfold shiftP; split <;> simp [mkBuf_length]

theorem crestSeq_succ_left (d t : ℚ) (hts : ℕ → ℕ → ℚ) (c0 : List ℚ) (m : ℕ) :
    crestSeq d t hts c0 (m + 1) =
      crestSeq d t (fun m j => hts (m + 1) j) (crestStep d t (hts 0) c0) m := by
  induction m with
  | zero => rfl
  | succ m ih =>
    show crestStep d t (hts (m + 1)) (crestSeq d t hts c0 (m + 1)) = _
    rw [ih]
    rfl

/-- A whole scan line: the crest becomes `lineP`, the cells of the line receive the lit crest,
and no other element of the shadow map changes. -/
theorem shadowLine_full (hm : List ℚ) (d : ℚ) (cell : Int → Int) (cellN : ℕ → ℕ)
    (st : LineState)
    (hcell : ∀ j, j < st.crest.length →
      cell (j : Int) = (cellN j : Int) ∧ cellN j < hm.length ∧ cellN j < st.shadow.length)
    (hinj : ∀ j j2, j < st.crest.length → j2 < st.crest.length → cellN j = cellN j2 → j = j2) :
    ∃ st2, shadowLine hm d cell st.crest.length 0 st = some st2 ∧
      st2.crest = lineP d (fun j => hm.getD (cellN j) 0) st.crest ∧
      st2.shadow.length = st.shadow.length ∧
      (∀ j, j < st.crest.length →
        st2.shadow.getD (cellN j) 0 = lit (st.crest.getD j 0) (hm.getD (cellN j) 0)) ∧
      (∀ n, (∀ j, j < st.crest.length → cellN j ≠ n) →
        st2.shadow.getD n 0 = st.shadow.getD n 0) := by
  obtain ⟨st2, hrun, hl1, hl2, hcr, hsh, hun⟩ :=
    shadowLine_spec hm d cell cellN st.crest.length 0 st (by omega)
      (fun j _ h2 => hcell j (by omega))
      (fun j j2 _ h2 _ h4 h5 => hinj j j2 (by omega) (by omega) h5)
  refine ⟨st2, by exact_mod_cast hrun, ?_, hl2, ?_, ?_⟩
  · apply buf_ext
    · rw [hl1, lineP_length]
    · intro j hj
      rw [hl1] at hj
      have h1 : 0 ≤ j ∧ j < 0 + st.crest.length := by omega
      rw [hcr j, if_pos h1, lineP, mkBuf_getD _ _ _ hj]
  · intro j hj
    exact hsh j (Nat.zero_le _) (by omega)
  · intro n hn
    exact hun n (fun j _ h2 => hn j (by omega))

/-- The outer loop on a grid whose lines have length `n ≥ 3`: it returns, the crest follows
`crestSeq`, every cell of the `m`-th scanned line holds the lit crest of that line, and the
other elements of the shadow map are unchanged. -/
theorem sweepLoop_spec (hm : List ℚ) (p : ScanParams) (cell : Int → Int → Int)
    (rect : cRect → Int → Int → Int → cRect) (n : ℕ) (hn : 3 ≤ n) (cellN : ℕ → ℕ → ℕ)
    (k : ℕ) :
    ∀ (l : Int) (lineN : ℕ → ℕ) (st : SweepState), st.crest.length = n →
    st.shadow.length = hm.length →
    (∀ m, m < k → l + (m : Int) * p.step = (lineN m : Int)) →
    (∀ m j, m < k → j < n →
      cell (lineN m : Int) (j : Int) = (cellN (lineN m) j : Int) ∧ cellN (lineN m) j < hm.length) →
    (∀ m j m2 j2, m < k → j < n → m2 < k → j2 < n →
      cellN (lineN m) j = cellN (lineN m2) j2 → m = m2 ∧ j = j2) →
    ∃ st2, sweepLoop hm p cell rect (n : Int) k l st = some st2 ∧
      st2.shadow.length = hm.length ∧
      st2.crest = crestSeq p.crestDescent p.crestOffset
        (fun m j => hm.getD (cellN (lineN m) j) 0) st.crest k ∧
      (∀ m j, m < k → j < n →
        st2.shadow.getD (cellN (lineN m) j) 0 =
          lit ((crestSeq p.crestDescent p.crestOffset
            (fun m j => hm.getD (cellN (lineN m) j) 0) st.crest m).getD j 0)
            (hm.getD (cellN (lineN m) j) 0)) ∧
      (∀ idx, (∀ m j, m < k → j < n → cellN (lineN m) j ≠ idx) →
        st2.shadow.getD idx 0 = st.shadow.getD idx 0) := by
  induction k with
  | zero =>
    intro l lineN st _ hs _ _ _
    refine ⟨st, rfl, hs, rfl, ?_, ?_⟩
    · intro m j hm0; omega
    · intro idx _; rfl
  | succ k ih =>
    intro l lineN st hc hs hline hcell hinj
    have hl0 : l = (lineN 0 : Int) := by
      have := hline 0 (by omega)
      simpa using this
    -- the first line
    obtain ⟨ls, hrun, hcr, hlen, hsh, hun⟩ :=
      shadowLine_full hm p.crestDescent (cell l) (cellN (lineN 0)) ⟨st.crest, st.shadow, -1, 0⟩
        (by
          intro j hj
          have hj2 : j < n := by simpa [hc] using hj
          obtain ⟨a, b⟩ := hcell 0 j (by omega) hj2
          refine ⟨by rw [hl0]; exact a, b, ?_⟩
          show cellN (lineN 0) j < st.shadow.length
          rw [hs]; exact b)
        (by
          intro j j2 hj hj2 h
          have hj3 : j < n := by simpa [hc] using hj
          have hj4 : j2 < n := by simpa [hc] using hj2
          exact (hinj 0 j 0 j2 (by omega) hj3 (by omega) hj4 h).2)
    have hrun2 : shadowLine hm p.crestDescent (cell l) (n : Int).toNat 0
        ⟨st.crest, st.shadow, -1, 0⟩ = some ls := by
      have : (n : Int).toNat = st.crest.length := by rw [hc]; simp
      rw [this]; exact hrun
    have hlsc : ls.crest.length = n := by
      rw [hcr, lineP_length]; exact hc
    have hshift := shiftCrest_eq p.crestOffset n ls.crest hn hlsc
    -- the remaining lines
    obtain ⟨st2, hrest, hlen2, hcr2, hsh2, hun2⟩ := ih (l + p.step) (fun m => lineN (m + 1))
      ⟨shiftP p.crestOffset ls.crest, ls.shadow,
        rect st.updateRect l ls.firstUpdate ls.lastUpdate⟩
      (by show (shiftP p.crestOffset ls.crest).length = n; rw [shiftP_length]; exact hlsc)
      (by show ls.shadow.length = hm.length; rw [hlen]; exact hs)
      (by
        intro m hmk
        have := hline (m + 1) (by omega)
        rw [← this]; push_cast; ring)
      (by
        intro m j hmk hj
        exact hcell (m + 1) j (by omega) hj)
      (by
        intro m j m2 j2 hmk hj hmk2 hj2 h
        have := hinj (m + 1) j (m2 + 1) j2 (by omega) hj (by omega) hj2 h
        exact ⟨by omega, this.2⟩)
    have hcrest1 : shiftP p.crestOffset ls.crest =
        crestStep p.crestDescent p.crestOffset (fun j => hm.getD (cellN (lineN 0) j) 0) st.crest := by
      rw [hcr]; rfl
    refine ⟨st2, ?_, hlen2, ?_, ?_, ?_⟩
    · show ((shadowLine hm p.crestDescent (cell l) (n : Int).toNat 0
          ⟨st.crest, st.shadow, -1, 0⟩).bind fun ls =>
          (shiftCrest p.crestOffset n ls.crest).bind fun crest =>
            sweepLoop hm p cell rect n k (l + p.step)
              ⟨crest, ls.shadow, rect st.updateRect l ls.firstUpdate ls.lastUpdate⟩) = _
      rw [hrun2, Option.some_bind, hshift, Option.some_bind]
      exact hrest
    · rw [hcr2, crestSeq_succ_left]
      show crestSeq _ _ _ (shiftP p.crestOffset ls.crest) k = _
      rw [hcrest1]
    · intro m j hmk hj
      cases m with
      | zero =>
        rw [hun2 (cellN (lineN 0) j)]
        · have := hsh j (by show j < st.crest.length; rw [hc]; exact hj)
          rw [this]; rfl
        · intro m2 j2 hm2 hj2 h
          have := hinj (m2 + 1) j2 0 j (by omega) hj2 (by omega) hj h
          omega
      | succ m =>
        have := hsh2 m j (by omega) hj
        rw [crestSeq_succ_left]
        show st2.shadow.getD (cellN (lineN (m + 1)) j) 0 =
          lit ((crestSeq _ _ _ (crestStep p.crestDescent p.crestOffset
            (fun j => hm.getD (cellN (lineN 0) j) 0) st.crest) m).getD j 0) _
        rw [← hcrest1]
        exact this
    · intro idx hidx
      rw [hun2 idx (fun m j hmk hj => hidx (m + 1) j (by omega) hj)]
      exact hun idx (fun j hj => hidx 0 j (by omega) (by rw [← hc]; exact hj))

theorem idx_lt (wn hn a j : ℕ) (ha : a < hn) (hj : j < wn) : a * wn + j < wn * hn := by
  calc a * wn + j < a * wn + wn := by omega
    _ = (a + 1) * wn := by ring
    _ ≤ hn * wn := Nat.mul_le_mul_right wn ha
    _ = wn * hn := Nat.mul_comm _ _

theorem idx_inj (wn a j a2 j2 : ℕ) (hj : j < wn) (hj2 : j2 < wn)
    (h : a * wn + j = a2 * wn + j2) : a = a2 ∧ j = j2 := by
  have hpos : 0 < wn := by omega
  have h1 : (a * wn + j) / wn = a := by
    rw [Nat.mul_comm, Nat.mul_add_div hpos, Nat.div_eq_of_lt hj]; simp
  have h2 : (a2 * wn + j2) / wn = a2 := by
    rw [Nat.mul_comm, Nat.mul_add_div hpos, Nat.div_eq_of_lt hj2]; simp
  have ha : a = a2 := by rw [← h1, ← h2, h]
  subst ha
  exact ⟨rfl, by omega⟩

theorem scanParams_step (n : Int) (co cd : ℚ) :
    ((scanParams n co cd).step = 1 ∧ (scanParams n co cd).first = 0) ∨
    ((scanParams n co cd).step = -1 ∧ (scanParams n co cd).first = n - 1) := by
  unfold scanParams
  split
  · left; exact ⟨rfl, rfl⟩
  · right; exact ⟨rfl, rfl⟩

theorem scan_line (n : Int) (co cd : ℚ) (L m : ℕ) (hL : n = (L : Int)) (hm : m < L) :
    (scanParams n co cd).first + (m : Int) * (scanParams n co cd).step =
      ((if (scanParams n co cd).step = 1 then m else L - 1 - m : ℕ) : Int) := by
  rcases scanParams_step n co cd with ⟨h1, h2⟩ | ⟨h1, h2⟩
  · rw [h1, h2, if_pos rfl]; simp
  · rw [h1, h2, if_neg (by decide)]; subst hL; omega

theorem scan_line_lt (n : Int) (co cd : ℚ) (L m : ℕ) (hm : m < L) :
    (if (scanParams n co cd).step = 1 then m else L - 1 - m : ℕ) < L := by
  split <;> omega

theorem scan_line_inj (n : Int) (co cd : ℚ) (L m m2 : ℕ) (hm : m < L) (hm2 : m2 < L)
    (h : (if (scanParams n co cd).step = 1 then m else L - 1 - m : ℕ) =
      (if (scanParams n co cd).step = 1 then m2 else L - 1 - m2 : ℕ)) : m = m2 := by
  split at h <;> omega

theorem rowBased_spec (s : cHeightMapShadow) (sunDir : Vec3f) (wn hn : ℕ) (hw : 3 ≤ wn)
    (hg : Grid s wn hn) :
    ∃ st : SweepState,
      FindHeightMapShadowsRowBased s sunDir = some { s with
        mShadowMap := st.shadow, mCrest := st.crest, mShadowUpdateRect := st.updateRect } ∧
      st.shadow.length = wn * hn ∧
      ∀ m j, m < hn → j < wn →
        st.shadow.getD ((if (rowParams s sunDir).step = 1 then m else hn - 1 - m) * wn + j) 0 =
          lit ((crestSeq (rowParams s sunDir).crestDescent (rowParams s sunDir).crestOffset
            (fun m j => s.mHeightMap.getD
              ((if (rowParams s sunDir).step = 1 then m else hn - 1 - m) * wn + j) 0)
            (List.replicate wn s.mMaxDepth) m).getD j 0)
            (s.mHeightMap.getD
              ((if (rowParams s sunDir).step = 1 then m else hn - 1 - m) * wn + j) 0) := by
  obtain ⟨hx, hy, hH, hS⟩ := hg
  obtain ⟨st, hrun, hlen, _, hsh, _⟩ :=
    sweepLoop_spec s.mHeightMap (rowParams s sunDir) (fun y x => y * (wn : Int) + x) rowRect wn hw
      (fun l j => l * wn + j) hn (rowParams s sunDir).first
      (fun m => if (rowParams s sunDir).step = 1 then m else hn - 1 - m)
      ⟨List.replicate wn s.mMaxDepth, s.mShadowMap, ⟨-1, -1, 0, 0⟩⟩
      (by simp) (by rw [hS, hH])
      (by
        intro m hm
        exact scan_line s.mSamplesY _ _ hn m hy hm)
      (by
        intro m j hm hj
        refine ⟨by push_cast; rfl, ?_⟩
        rw [hH]
        exact idx_lt wn hn _ j (scan_line_lt s.mSamplesY _ _ hn m hm) hj)
      (by
        intro m j m2 j2 hm hj hm2 hj2 h
        obtain ⟨h1, h2⟩ := idx_inj wn _ j _ j2 hj hj2 h
        exact ⟨scan_line_inj s.mSamplesY _ _ hn m m2 hm hm2 h1, h2⟩)
  refine ⟨st, ?_, by rw [hlen, hH], hsh⟩
  unfold FindHeightMapShadowsRowBased
  have hguard : ¬ (s.mSamplesX < 0 ∨ s.mSamplesY < 0) := by rw [hx, hy]; omega
  simp only [hguard, if_false]
  rw [rowSweep_eq, hx, hy]
  simp only [Int.toNat_ofNat]
  rw [hrun]
  rfl

theorem columnBased_spec (s : cHeightMapShadow) (sunDir : Vec3f) (wn hn : ℕ) (hh : 3 ≤ hn)
    (hg : Grid s wn hn) :
    ∃ st : SweepState,
      FindHeightMapShadowsColumnBased s sunDir = some { s with
        mShadowMap := st.shadow, mCrest := st.crest, mShadowUpdateRect := st.updateRect } ∧
      st.shadow.length = wn * hn ∧
      ∀ m j, m < wn → j < hn →
        st.shadow.getD ((if (columnParams s sunDir).step = 1 then m else wn - 1 - m) + j * wn) 0 =
          lit ((crestSeq (columnParams s sunDir).crestDescent (columnParams s sunDir).crestOffset
            (fun m j => s.mHeightMap.getD
              ((if (columnParams s sunDir).step = 1 then m else wn - 1 - m) + j * wn) 0)
            (List.replicate hn s.mMaxDepth) m).getD j 0)
            (s.mHeightMap.getD
              ((if (columnParams s sunDir).step = 1 then m else wn - 1 - m) + j * wn) 0) := by
  obtain ⟨hx, hy, hH, hS⟩ := hg
  obtain ⟨st, hrun, hlen, _, hsh, _⟩ :=
    sweepLoop_spec s.mHeightMap (columnParams s sunDir) (fun x y => x + y * (wn : Int)) columnRect
      hn hh (fun l j => l + j * wn) wn (columnParams s sunDir).first
      (fun m => if (columnParams s sunDir).step = 1 then m else wn - 1 - m)
      ⟨List.replicate hn s.mMaxDepth, s.mShadowMap, ⟨-1, -1, 0, 0⟩⟩
      (by simp) (by rw [hS, hH])
      (by
        intro m hm
        exact scan_line s.mSamplesX _ _ wn m hx hm)
      (by
        intro m j hm hj
        refine ⟨by push_cast; rfl, ?_⟩
        rw [hH]
        beta_reduce
        rw [Nat.add_comm]
        have := idx_lt wn hn j _ hj (scan_line_lt s.mSamplesX
          (-sunDir.y / sunDir.x) (s.mCellWidth * sunDir.z / sunDir.x) wn m hm)
        exact this)
      (by
        intro m j m2 j2 hm hj hm2 hj2 h
        have hl := scan_line_lt s.mSamplesX
          (-sunDir.y / sunDir.x) (s.mCellWidth * sunDir.z / sunDir.x) wn m hm
        have hl2 := scan_line_lt s.mSamplesX
          (-sunDir.y / sunDir.x) (s.mCellWidth * sunDir.z / sunDir.x) wn m2 hm2
        beta_reduce at h
        rw [Nat.add_comm, Nat.add_comm _ (j2 * wn)] at h
        obtain ⟨h1, h2⟩ := idx_inj wn j _ j2 _ hl hl2 h
        exact ⟨scan_line_inj s.mSamplesX _ _ wn m m2 hm hm2 h2, h1⟩)
  refine ⟨st, ?_, by rw [hlen, hH], hsh⟩
  unfold FindHeightMapShadowsColumnBased
  have hguard : ¬ (s.mSamplesX < 0 ∨ s.mSamplesY < 0) := by rw [hx, hy]; omega
  simp only [hguard, if_false]
  rw [columnSweep_eq, hx, hy]
  simp only [Int.toNat_ofNat]
  rw [hrun]
  rfl

/-- The sweep under a light that casts shadows, on a grid whose scan lines have at least three
cells: `FindHeightMapShadows` returns, changes only the shadow map, the crest, the rectangle
and the flag, and every cell holds the crest of its line after the terrain test. -/
theorem sweep_spec (s : cHeightMapShadow) (sunDir : Vec3f) (wn hn : ℕ)
    (h3 : 3 ≤ lineLen s sunDir) (hg : Grid s wn hn) (hnd : ¬ noShadow sunDir) :
    ∃ sh cr r,
      FindHeightMapShadows s sunDir = some { s with
        mShadowMap := sh, mCrest := cr, mShadowUpdateRect := r, mEmptyShadowMap := false } ∧
      sh.length = wn * hn ∧
      ∀ m j, m < lineCount s sunDir → j < lineLen s sunDir →
        sh.getD (cellIdx s sunDir m j) 0 =
          lit ((sweepCrest s sunDir m).getD j 0) (s.mHeightMap.getD (cellIdx s sunDir m j) 0) := by
  have hx := hg.1
  have hy := hg.2.1
  unfold FindHeightMapShadows
  rw [if_neg hnd]
  by_cases hr : rowScan sunDir
  · have hw : 3 ≤ wn := by
      simpa only [lineLen, if_pos hr, hx, Int.toNat_ofNat] using h3
    obtain ⟨st, hrun, hlen, hsh⟩ := rowBased_spec s sunDir wn hn hw hg
    refine ⟨st.shadow, st.crest, st.updateRect, ?_, hlen, ?_⟩
    · rw [if_pos hr, hrun]; rfl
    · simp only [lineLen, lineCount, cellIdx, lineIdx, sweepCrest, sweepParams, if_pos hr, hx, hy,
        Int.toNat_ofNat]
      exact hsh
  · have hh : 3 ≤ hn := by
      simpa only [lineLen, if_neg hr, hy, Int.toNat_ofNat] using h3
    obtain ⟨st, hrun, hlen, hsh⟩ := columnBased_spec s sunDir wn hn hh hg
    refine ⟨st.shadow, st.crest, st.updateRect, ?_, hlen, ?_⟩
    · rw [if_neg hr, hrun]; rfl
    · simp only [lineLen, lineCount, cellIdx, lineIdx, sweepCrest, sweepParams, if_neg hr, hx, hy,
        Int.toNat_ofNat]
      exact hsh

theorem le_lit_left (v c : ℚ) : v ≤ lit v c := by
  unfold lit
  split
  · next hlt => exact le_of_lt hlt
  · exact le_refl _

theorem scanParams_bounds (n : Int) (co cd : ℚ) (h1 : -1 ≤ co) (h2 : co ≤ 1) :
    (scanParams n co cd).crestDescent ≤ 0 ∧
      -1 ≤ (scanParams n co cd).crestOffset ∧ (scanParams n co cd).crestOffset ≤ 1 := by
  unfold scanParams
  split
  · next h => exact ⟨le_of_lt h, h1, h2⟩
  · next h =>
    refine ⟨?_, ?_, ?_⟩
    · show -cd ≤ 0
      linarith [not_lt.mp h]
    · show -1 ≤ -co
      linarith
    · show -co ≤ 1
      linarith

theorem neg_div_abs_le (a b : ℚ) (hb : b ≠ 0) (h : |a| ≤ |b|) : -1 ≤ -a / b ∧ -a / b ≤ 1 := by
  have hpos : 0 < |b| := abs_pos.mpr hb
  have habs : |(-a / b)| ≤ 1 := by
    rw [abs_div, abs_neg]
    exact (div_le_one hpos).mpr h
  exact abs_le.mp habs

/-- A light that passes the degenerate-light test has a non-zero component along the scan
direction that is selected for it. -/
theorem scan_divisor_ne_zero (sunDir : Vec3f) (hnd : ¬ noShadow sunDir) :
    (rowScan sunDir → sunDir.y ≠ 0) ∧ (¬ rowScan sunDir → sunDir.x ≠ 0) := by
  constructor
  · intro hr hy
    have hr2 : |sunDir.x| < |sunDir.y| := hr
    rw [hy, abs_zero] at hr2
    exact absurd hr2 (not_lt.mpr (abs_nonneg _))
  · intro hr hx
    have hr2 : ¬ |sunDir.x| < |sunDir.y| := hr
    rw [hx, abs_zero] at hr2
    have hy0 : |sunDir.y| ≤ 0 := not_lt.mp hr2
    apply hnd
    right
    rw [hx, abs_zero]
    constructor
    · norm_num
    · exact lt_of_le_of_lt hy0 (by norm_num)

theorem rowParams_bounds (s : cHeightMapShadow) (sunDir : Vec3f) (hnd : ¬ noShadow sunDir)
    (hr : rowScan sunDir) :
    (rowParams s sunDir).crestDescent ≤ 0 ∧
      -1 ≤ (rowParams s sunDir).crestOffset ∧ (rowParams s sunDir).crestOffset ≤ 1 := by
  have hy := (scan_divisor_ne_zero sunDir hnd).1 hr
  have hr2 : |sunDir.x| < |sunDir.y| := hr
  obtain ⟨h1, h2⟩ := neg_div_abs_le sunDir.x sunDir.y hy (le_of_lt hr2)
  exact scanParams_bounds _ _ _ h1 h2

theorem columnParams_bounds (s : cHeightMapShadow) (sunDir : Vec3f) (hnd : ¬ noShadow sunDir)
    (hr : ¬ rowScan sunDir) :
    (columnParams s sunDir).crestDescent ≤ 0 ∧
      -1 ≤ (columnParams s sunDir).crestOffset ∧ (columnParams s sunDir).crestOffset ≤ 1 := by
  have hx := (scan_divisor_ne_zero sunDir hnd).2 hr
  have hr2 : ¬ |sunDir.x| < |sunDir.y| := hr
  obtain ⟨h1, h2⟩ := neg_div_abs_le sunDir.y sunDir.x hx (not_lt.mp hr2)
  exact scanParams_bounds _ _ _ h1 h2

theorem wrapInt_of_range (n : Int) (h0 : 0 ≤ n) (h1 : n ≤ INT_MAX) : wrapInt n = n := by
  unfold wrapInt
  unfold INT_MAX at h1
  omega

theorem SetDimensions_eq (s : cHeightMapShadow) (samplesX samplesY : Int)
    (cellWidth maxShadowDepth : ℚ)
    (h : 0 ≤ samplesX * samplesY ∧ samplesX * samplesY ≤ INT_MAX) :
    SetDimensions s samplesX samplesY cellWidth maxShadowDepth =
      some { s with
        mCellWidth := cellWidth
        mInvCellWidth := 1 / cellWidth
        mSamplesX := samplesX
        mSamplesY := samplesY
        mMaxDepth := maxShadowDepth
        mHeightMap := List.replicate (samplesX * samplesY).toNat maxShadowDepth
        mShadowMap := List.replicate (samplesX * samplesY).toNat maxShadowDepth } := by
  have hw : wrapInt (samplesX * samplesY) = samplesX * samplesY :=
    wrapInt_of_range _ h.1 h.2
  unfold SetDimensions
  simp only [hw, h.1, if_true]

theorem noShadow_clear (s : cHeightMapShadow) (sunDir : Vec3f) (hns : noShadow sunDir) :
    FindHeightMapShadows s sunDir = some (if !s.mEmptyShadowMap then ClearShadowMap s else s) := by
  unfold FindHeightMapShadows
  rw [if_pos hns]

/-! ## Flat height fields -/

theorem ShadowDepth_eq (s : cHeightMapShadow) (wn hn : ℕ) (hg : Grid s wn hn) (x y : ℕ)
    (hx : x < wn) (hy : y < hn) :
    ShadowDepth s x y =
      some (s.mShadowMap.getD (y * wn + x) 0 - s.mHeightMap.getD (y * wn + x) 0) := by
  obtain ⟨h1, _, h3, h4⟩ := hg
  have hidx : y * wn + x < wn * hn := idx_lt wn hn y x hy hx
  have hcast : (x : Int) + (y : Int) * s.mSamplesX = ((y * wn + x : ℕ) : Int) := by
    rw [h1]; push_cast; ring
  unfold ShadowDepth
  simp only [hcast]
  rw [rd_of_lt _ _ (by rw [h4]; exact hidx), rd_of_lt _ _ (by rw [h3]; exact hidx)]
  rfl

theorem lerp_mono (a b x y t : ℚ) (h0 : 0 ≤ t) (h1 : t ≤ 1) (hab : a ≤ b) (hxy : x ≤ y) :
    lerp a x t ≤ lerp b y t := by
  unfold lerp
  have e1 : (1 - t) * a ≤ (1 - t) * b := mul_le_mul_of_nonneg_left hab (by linarith)
  have e2 : t * x ≤ t * y := mul_le_mul_of_nonneg_left hxy h0
  linarith

theorem getD_mem (buf : List ℚ) (j : ℕ) (hj : j < buf.length) : buf.getD j 0 ∈ buf := by
  rw [List.getD_eq_getElem?_getD, List.getElem?_eq_getElem hj]
  exact List.getElem_mem hj

theorem exists_getD_of_mem (buf : List ℚ) (v : ℚ) (hv : v ∈ buf) :
    ∃ j, j < buf.length ∧ buf.getD j 0 = v := by
  obtain ⟨j, hj, hjv⟩ := List.mem_iff_getElem.mp hv
  refine ⟨j, hj, ?_⟩
  rw [List.getD_eq_getElem?_getD, List.getElem?_eq_getElem hj]
  exact hjv

theorem rowBased_frame (s s1 : cHeightMapShadow) (sunDir : Vec3f)
    (h : FindHeightMapShadowsRowBased s sunDir = some s1) :
    ∃ sh cr r, s1 = { s with mShadowMap := sh, mCrest := cr, mShadowUpdateRect := r } := by
  unfold FindHeightMapShadowsRowBased at h
  by_cases hguard : s.mSamplesX < 0 ∨ s.mSamplesY < 0
  · simp only [hguard, if_true] at h
    exact Option.noConfusion h
  · simp only [hguard, if_false] at h
    cases hsw : rowSweep s.mHeightMap s.mSamplesX (rowParams s sunDir) s.mSamplesY.toNat
        (rowParams s sunDir).first
        ⟨List.replicate s.mSamplesX.toNat s.mMaxDepth, s.mShadowMap, ⟨-1, -1, 0, 0⟩⟩ with
    | none =>
      rw [hsw] at h
      exact Option.noConfusion h
    | some st =>
      rw [hsw] at h
      exact ⟨st.shadow, st.crest, st.updateRect, (Option.some.inj h).symm⟩

theorem columnBased_frame (s s1 : cHeightMapShadow) (sunDir : Vec3f)
    (h : FindHeightMapShadowsColumnBased s sunDir = some s1) :
    ∃ sh cr r, s1 = { s with mShadowMap := sh, mCrest := cr, mShadowUpdateRect := r } := by
  unfold FindHeightMapShadowsColumnBased at h
  by_cases hguard : s.mSamplesX < 0 ∨ s.mSamplesY < 0
  · simp only [hguard, if_true] at h
    exact Option.noConfusion h
  · simp only [hguard, if_false] at h
    cases hsw : columnSweep s.mHeightMap s.mSamplesX s.mSamplesY (columnParams s sunDir)
        s.mSamplesX.toNat (columnParams s sunDir).first
        ⟨List.replicate s.mSamplesY.toNat s.mMaxDepth, s.mShadowMap, ⟨-1, -1, 0, 0⟩⟩ with
    | none =>
      rw [hsw] at h
      exact Option.noConfusion h
    | some st =>
      rw [hsw] at h
      exact ⟨st.shadow, st.crest, st.updateRect, (Option.some.inj h).symm⟩

/-- Whatever the state and the light, a sweep that returns has changed nothing but the shadow
map, the crest, the empty flag and the rectangle. -/
theorem sweep_frame (s s2 : cHeightMapShadow) (sunDir : Vec3f)
    (h : FindHeightMapShadows s sunDir = some s2) :
    ∃ sh cr fl r, s2 = { s with
      mShadowMap := sh, mCrest := cr, mEmptyShadowMap := fl, mShadowUpdateRect := r } := by
  by_cases hns : noShadow sunDir
  · rw [noShadow_clear s sunDir hns] at h
    have h2 := (Option.some.inj h).symm
    cases hf : s.mEmptyShadowMap with
    | false =>
      rw [hf] at h2
      exact ⟨_, s.mCrest, true, s.mShadowUpdateRect, h2⟩
    | true =>
      rw [hf] at h2
      refine ⟨s.mShadowMap, s.mCrest, true, s.mShadowUpdateRect, ?_⟩
      rw [h2]
      simp only [Bool.not_true]
      cases s
      simp only at hf
      subst hf
      rfl
  · unfold FindHeightMapShadows at h
    rw [if_neg hns] at h
    by_cases hr : rowScan sunDir
    · rw [if_pos hr] at h
      cases hrun : FindHeightMapShadowsRowBased s sunDir with
      | none => rw [hrun] at h; exact Option.noConfusion h
      | some s1 =>
        rw [hrun] at h
        obtain ⟨sh, cr, r, hs1⟩ := rowBased_frame s s1 sunDir hrun
        refine ⟨sh, cr, false, r, ?_⟩
        rw [← Option.some.inj h, hs1]
    · rw [if_neg hr] at h
      cases hrun : FindHeightMapShadowsColumnBased s sunDir with
      | none => rw [hrun] at h; exact Option.noConfusion h
      | some s1 =>
        rw [hrun] at h
        obtain ⟨sh, cr, r, hs1⟩ := columnBased_frame s s1 sunDir hrun
        refine ⟨sh, cr, false, r, ?_⟩
        rw [← Option.some.inj h, hs1]

/-! ## Terrain test and scan lines -/

theorem lineLen_ge_three (s : cHeightMapShadow) (sunDir : Vec3f) (wn hn : ℕ)
    (hw : 3 ≤ wn) (hh : 3 ≤ hn) (hg : Grid s wn hn) : 3 ≤ lineLen s sunDir := by
  unfold lineLen
  split
  · rw [hg.1]; simpa using hw
  · rw [hg.2.1]; simpa using hh

theorem floor_le_roundHalfEven (q : ℚ) : ⌊q⌋ ≤ roundHalfEven q := by
  unfold roundHalfEven
  split_ifs <;> omega

theorem roundHalfEven_le_floor_succ (q : ℚ) : roundHalfEven q ≤ ⌊q⌋ + 1 := by
  unfold roundHalfEven
  split_ifs <;> omega

theorem roundHalfEven_intCast (n : Int) : roundHalfEven (n : ℚ) = n := by
  unfold roundHalfEven
  simp

theorem le_roundHalfEven (n : Int) (q : ℚ) (h : (n : ℚ) ≤ q) : n ≤ roundHalfEven q :=
  le_trans (Int.le_floor.mpr h) (floor_le_roundHalfEven q)

theorem roundHalfEven_le (n : Int) (q : ℚ) (h : q ≤ (n : ℚ)) : roundHalfEven q ≤ n := by
  rcases eq_or_lt_of_le h with h1 | h1
  · rw [h1, roundHalfEven_intCast]
  · have : ⌊q⌋ < n := Int.floor_lt.mpr h1
    have := roundHalfEven_le_floor_succ q
    omega

theorem roundHalfEven_mono (x y : ℚ) (h : x ≤ y) : roundHalfEven x ≤ roundHalfEven y := by
  have hf : ⌊x⌋ ≤ ⌊y⌋ := Int.floor_le_floor h
  rcases eq_or_lt_of_le hf with he | hl
  · unfold roundHalfEven
    rw [← he]
    have hfr : x - ⌊x⌋ ≤ y - ⌊x⌋ := by linarith
    split_ifs <;> first | omega | (exfalso; linarith)
  · have h1 := roundHalfEven_le_floor_succ x
    have h2 := floor_le_roundHalfEven y
    omega

theorem log2Fuel_spec (fuel : ℕ) : ∀ n : ℕ, 0 < n → n ≤ fuel →
    2 ^ log2Fuel fuel n ≤ n ∧ n < 2 ^ (log2Fuel fuel n + 1) := by
  induction fuel with
  | zero => intro n h1 h2; omega
  | succ k ih =>
    intro n h1 h2
    unfold log2Fuel
    by_cases hn : n < 2
    · rw [if_pos hn]
      constructor
      · simpa using h1
      · simpa using hn
    · rw [if_neg hn]
      obtain ⟨ih1, ih2⟩ := ih (n / 2) (by omega) (by omega)
      constructor
      · rw [pow_succ]
        have := Nat.div_mul_le_self n 2
        calc 2 ^ log2Fuel k (n / 2) * 2 ≤ n / 2 * 2 := Nat.mul_le_mul_right 2 ih1
          _ ≤ n := this
      · rw [pow_succ]
        have h3 : n < (n / 2 + 1) * 2 := by omega
        calc n < (n / 2 + 1) * 2 := h3
          _ ≤ 2 ^ (log2Fuel k (n / 2) + 1) * 2 := Nat.mul_le_mul_right 2 ih2

theorem two_zpow_pos (e : Int) : (0 : ℚ) < (2 : ℚ) ^ e := zpow_pos (by norm_num) e

theorem floorLog2_spec (q : ℚ) (hq : 0 < q) :
    (2 : ℚ) ^ floorLog2 q ≤ q ∧ q < (2 : ℚ) ^ (floorLog2 q + 1) := by
  have hnum : 0 < q.num := Rat.num_pos.mpr hq
  have ha0 : 0 < q.num.natAbs := by omega
  have hb0 : 0 < q.den := q.den_pos
  have hqe : q = (q.num.natAbs : ℚ) / (q.den : ℚ) := by
    have h2 : (q.num.natAbs : ℚ) = (q.num : ℚ) := by
      rw [Nat.cast_natAbs, abs_of_pos hnum]
    rw [h2]
    exact (Rat.num_div_den q).symm
  obtain ⟨ha1n, ha2n⟩ := log2Fuel_spec _ _ ha0 le_rfl
  obtain ⟨hb1n, hb2n⟩ := log2Fuel_spec _ _ hb0 le_rfl
  generalize hla : log2Fuel q.num.natAbs q.num.natAbs = la at *
  generalize hlb : log2Fuel q.den q.den = lb at *
  have ha1 : (2 : ℚ) ^ la ≤ (q.num.natAbs : ℚ) := by exact_mod_cast ha1n
  have ha2 : (q.num.natAbs : ℚ) < (2 : ℚ) ^ (la + 1) := by exact_mod_cast ha2n
  have hb1 : (2 : ℚ) ^ lb ≤ (q.den : ℚ) := by exact_mod_cast hb1n
  have hb2 : (q.den : ℚ) < (2 : ℚ) ^ (lb + 1) := by exact_mod_cast hb2n
  have hbpos : (0 : ℚ) < (q.den : ℚ) := by exact_mod_cast hb0
  have hapos : (0 : ℚ) < (q.num.natAbs : ℚ) := by exact_mod_cast ha0
  have e1 : (2 : ℚ) ^ ((la : Int) - (lb : Int) + 1) = (2 : ℚ) ^ (la + 1) / (2 : ℚ) ^ lb := by
    rw [zpow_add₀ (by norm_num : (2 : ℚ) ≠ 0), zpow_sub₀ (by norm_num : (2 : ℚ) ≠ 0),
      zpow_natCast, zpow_natCast, zpow_one, pow_succ]
    ring
  have e2 : (2 : ℚ) ^ ((la : Int) - (lb : Int) - 1) = (2 : ℚ) ^ la / (2 : ℚ) ^ (lb + 1) := by
    rw [zpow_sub₀ (by norm_num : (2 : ℚ) ≠ 0), zpow_sub₀ (by norm_num : (2 : ℚ) ≠ 0),
      zpow_natCast, zpow_natCast, zpow_one, pow_succ]
    field_simp
  have hup : q < (2 : ℚ) ^ ((la : Int) - (lb : Int) + 1) := by
    rw [e1, lt_div_iff₀ (by positivity)]
    calc q * (2 : ℚ) ^ lb ≤ q * (q.den : ℚ) := mul_le_mul_of_nonneg_left hb1 (le_of_lt hq)
      _ = (q.num.natAbs : ℚ) := by nth_rewrite 1 [hqe]; field_simp
      _ < (2 : ℚ) ^ (la + 1) := ha2
  have hlow : (2 : ℚ) ^ ((la : Int) - (lb : Int) - 1) ≤ q := by
    rw [e2, div_le_iff₀ (by positivity)]
    calc (2 : ℚ) ^ la ≤ (q.num.natAbs : ℚ) := ha1
      _ = q * (q.den : ℚ) := by nth_rewrite 2 [hqe]; field_simp
      _ ≤ q * (2 : ℚ) ^ (lb + 1) := mul_le_mul_of_nonneg_left (le_of_lt hb2) (le_of_lt hq)
  unfold floorLog2
  simp only
  rw [hla, hlb]
  split
  · next h => exact ⟨h, hup⟩
  · next h =>
    refine ⟨hlow, ?_⟩
    rw [sub_add_cancel]
    exact not_le.mp h

theorem floorLog2_mono (x y : ℚ) (hx : 0 < x) (h : x ≤ y) : floorLog2 x ≤ floorLog2 y := by
  by_contra hc
  have hlt : floorLog2 y + 1 ≤ floorLog2 x := by omega
  have h1 := (floorLog2_spec x hx).1
  have h2 := (floorLog2_spec y (lt_of_lt_of_le hx h)).2
  have h3 : (2 : ℚ) ^ (floorLog2 y + 1) ≤ (2 : ℚ) ^ floorLog2 x :=
    zpow_le_zpow_right₀ (by norm_num) hlt
  linarith

theorem two_zpow_split (e : Int) : (2 : ℚ) ^ (e + 1) = 16777216 * (2 : ℚ) ^ (e - 23) := by
  have h : e + 1 = 24 + (e - 23) := by ring
  rw [h, zpow_add₀ (by norm_num : (2 : ℚ) ≠ 0)]
  norm_num

theorem two_zpow_split_low (e : Int) : (2 : ℚ) ^ e = 8388608 * (2 : ℚ) ^ (e - 23) := by
  have h : e = 23 + (e - 23) := by ring
  nth_rewrite 1 [h]
  rw [zpow_add₀ (by norm_num : (2 : ℚ) ≠ 0)]
  norm_num

theorem roundF32_zero : roundF32 0 = 0 := by
  unfold roundF32
  rw [zero_div, ← Int.cast_zero, roundHalfEven_intCast]
  simp

theorem roundF32_nonneg (q : ℚ) (h : 0 ≤ q) : 0 ≤ roundF32 q := by
  unfold roundF32
  apply mul_nonneg _ (le_of_lt (two_zpow_pos _))
  have : (0 : Int) ≤ roundHalfEven (q / (2 : ℚ) ^ (floatExp q - 23)) :=
    le_roundHalfEven 0 _ (by simpa using div_nonneg h (le_of_lt (two_zpow_pos _)))
  exact_mod_cast this

theorem floatExp_ge (q : ℚ) : -126 ≤ floatExp q := le_max_right _ _

theorem lt_two_zpow_floatExp (q : ℚ) (h : 0 ≤ q) : q < (2 : ℚ) ^ (floatExp q + 1) := by
  rcases eq_or_lt_of_le h with h0 | h0
  · rw [← h0]; exact two_zpow_pos _
  · have h1 := (floorLog2_spec q h0).2
    have h2 : floorLog2 q + 1 ≤ floatExp q + 1 := by
      unfold floatExp
      rw [abs_of_nonneg h]
      have := le_max_left (floorLog2 q) (-126)
      omega
    have h3 : (2 : ℚ) ^ (floorLog2 q + 1) ≤ (2 : ℚ) ^ (floatExp q + 1) :=
      zpow_le_zpow_right₀ (by norm_num) h2
    exact lt_of_lt_of_le h1 h3

theorem roundF32_le_two_zpow (q : ℚ) (h : 0 ≤ q) : roundF32 q ≤ (2 : ℚ) ^ (floatExp q + 1) := by
  have hu := two_zpow_pos (floatExp q - 23)
  have h1 : q / (2 : ℚ) ^ (floatExp q - 23) ≤ ((16777216 : Int) : ℚ) := by
    rw [div_le_iff₀ hu]
    have := lt_two_zpow_floatExp q h
    rw [two_zpow_split] at this
    push_cast
    exact le_of_lt this
  have h2 : roundHalfEven (q / (2 : ℚ) ^ (floatExp q - 23)) ≤ 16777216 := roundHalfEven_le _ _ h1
  have h3 : (roundHalfEven (q / (2 : ℚ) ^ (floatExp q - 23)) : ℚ) ≤ 16777216 := by exact_mod_cast h2
  unfold roundF32
  rw [two_zpow_split]
  exact mul_le_mul_of_nonneg_right h3 (le_of_lt hu)

theorem two_zpow_le_roundF32 (q : ℚ) (h : 0 < q) (he : -126 < floatExp q) :
    (2 : ℚ) ^ floatExp q ≤ roundF32 q := by
  have hu := two_zpow_pos (floatExp q - 23)
  have hlog : floatExp q = floorLog2 q := by
    unfold floatExp at he ⊢
    rw [abs_of_pos h] at he ⊢
    rcases max_cases (floorLog2 q) (-126) with ⟨h1, _⟩ | ⟨h1, _⟩
    · exact h1
    · rw [h1] at he; omega
  have h0b : (2 : ℚ) ^ floatExp q ≤ q := by
    rw [hlog]
    exact (floorLog2_spec q h).1
  have h1 : ((8388608 : Int) : ℚ) ≤ q / (2 : ℚ) ^ (floatExp q - 23) := by
    rw [le_div_iff₀ hu]
    push_cast
    rw [← two_zpow_split_low]
    exact h0b
  have h2 : 8388608 ≤ roundHalfEven (q / (2 : ℚ) ^ (floatExp q - 23)) := le_roundHalfEven _ _ h1
  have h3 : (8388608 : ℚ) ≤ (roundHalfEven (q / (2 : ℚ) ^ (floatExp q - 23)) : ℚ) := by
    exact_mod_cast h2
  unfold roundF32
  nth_rewrite 1 [two_zpow_split_low]
  exact mul_le_mul_of_nonneg_right h3 (le_of_lt hu)

theorem floatExp_mono (x y : ℚ) (hx : 0 < x) (h : x ≤ y) : floatExp x ≤ floatExp y := by
  unfold floatExp
  rw [abs_of_pos hx, abs_of_pos (lt_of_lt_of_le hx h)]
  exact max_le_max (floorLog2_mono x y hx h) le_rfl

theorem roundF32_mono (x y : ℚ) (hx : 0 ≤ x) (h : x ≤ y) : roundF32 x ≤ roundF32 y := by
  rcases eq_or_lt_of_le hx with h0 | h0
  · rw [← h0, roundF32_zero]
    exact roundF32_nonneg y (le_trans hx h)
  · have he := floatExp_mono x y h0 h
    rcases eq_or_lt_of_le he with heq | hlt
    · unfold roundF32
      rw [← heq]
      have hu := two_zpow_pos (floatExp x - 23)
      apply mul_le_mul_of_nonneg_right _ (le_of_lt hu)
      have := roundHalfEven_mono _ _ (div_le_div_of_nonneg_right h (le_of_lt hu))
      exact_mod_cast this
    · have h1 := roundF32_le_two_zpow x hx
      have h2 := two_zpow_le_roundF32 y (lt_of_lt_of_le h0 h)
        (lt_of_le_of_lt (floatExp_ge x) hlt)
      have h3 : (2 : ℚ) ^ (floatExp x + 1) ≤ (2 : ℚ) ^ floatExp y :=
        zpow_le_zpow_right₀ (by norm_num) (by omega)
      linarith

theorem roundF32_one : roundF32 1 = 1 := by decide!

theorem isInfinite_of_nonneg (q : ℚ) (h : 0 ≤ q) :
    isInfinite q ↔ 340282366920938463463374607431768211456 ≤ q := by
  unfold isInfinite
  rw [abs_of_nonneg h]

/-- A rounded value below `2^128` is at most `FLT_MAX`. -/
theorem roundF32_le_FLT_MAX (q : ℚ) (h0 : 0 ≤ q)
    (h : roundF32 q < 340282366920938463463374607431768211456) : roundF32 q ≤ FLT_MAX := by
  rcases eq_or_lt_of_le h0 with hz | hpos
  · rw [← hz, roundF32_zero]; unfold FLT_MAX; norm_num
  · have hge := floatExp_ge q
    by_cases he : 128 ≤ floatExp q
    · exfalso
      have h1 := two_zpow_le_roundF32 q hpos (by omega)
      have h2 : (2 : ℚ) ^ (128 : Int) ≤ (2 : ℚ) ^ floatExp q :=
        zpow_le_zpow_right₀ (by norm_num) he
      have h3 : (2 : ℚ) ^ (128 : Int) = 340282366920938463463374607431768211456 := by norm_num
      linarith
    · by_cases he2 : floatExp q = 127
      · unfold roundF32 at h ⊢
        rw [he2] at h ⊢
        have hu : (2 : ℚ) ^ ((127 : Int) - 23) = 20282409603651670423947251286016 := by norm_num
        rw [hu] at h ⊢
        have hk : (roundHalfEven (q / 20282409603651670423947251286016) : ℚ) < 16777216 := by
          by_contra hc
          have hc2 := not_lt.mp hc
          nlinarith
        have hk2 : roundHalfEven (q / 20282409603651670423947251286016) < 16777216 := by
          exact_mod_cast hk
        have hk3 : roundHalfEven (q / 20282409603651670423947251286016) ≤ 16777215 := by omega
        have hk4 : (roundHalfEven (q / 20282409603651670423947251286016) : ℚ) ≤ 16777215 := by
          exact_mod_cast hk3
        unfold FLT_MAX
        nlinarith
      · have h1 := roundF32_le_two_zpow q h0
        have h2 : (2 : ℚ) ^ (floatExp q + 1) ≤ (2 : ℚ) ^ (127 : Int) :=
          zpow_le_zpow_right₀ (by norm_num) (by omega)
        have h3 : (2 : ℚ) ^ (127 : Int) = 170141183460469231731687303715884105728 := by norm_num
        unfold FLT_MAX
        linarith

theorem stdMax_eq_max (a b : ℚ) : stdMax a b = max a b := by
  unfold stdMax
  split
  · next h => exact (max_eq_right (le_of_lt h)).symm
  · next h => exact (max_eq_left (not_lt.mp h)).symm

/-! ## Shading helpers -/

theorem shadowScale_of_infinite (s : cHeightMapShadow) (d : ℚ)
    (h : isInfinite (roundF32 (stdMax d 0 * s.mShadowStrength))) : ShadowScale s d = some 0 := by
  unfold ShadowScale
  simp only [h, if_true]

theorem shadowScale_of_finite (s : cHeightMapShadow) (d : ℚ)
    (h0 : 0 ≤ stdMax d 0 * s.mShadowStrength)
    (h : ¬ isInfinite (roundF32 (stdMax d 0 * s.mShadowStrength))) :
    ShadowScale s d =
        some (roundF32 (1 / roundF32 (1 + roundF32 (stdMax d 0 * s.mShadowStrength)))) ∧
      1 ≤ roundF32 (1 + roundF32 (stdMax d 0 * s.mShadowStrength)) ∧
      roundF32 (1 + roundF32 (stdMax d 0 * s.mShadowStrength)) ≤ FLT_MAX := by
  have hP0 := roundF32_nonneg _ h0
  have hPlt : roundF32 (stdMax d 0 * s.mShadowStrength)
      < 340282366920938463463374607431768211456 := by
    rw [isInfinite_of_nonneg _ hP0] at h
    exact not_le.mp h
  have hPmax := roundF32_le_FLT_MAX _ h0 hPlt
  have ha1 : 1 ≤ roundF32 (1 + roundF32 (stdMax d 0 * s.mShadowStrength)) := by
    have := roundF32_mono 1 (1 + roundF32 (stdMax d 0 * s.mShadowStrength)) (by norm_num)
      (by linarith)
    rw [roundF32_one] at this
    exact this
  have ha2 : roundF32 (1 + roundF32 (stdMax d 0 * s.mShadowStrength)) ≤ FLT_MAX := by
    have := roundF32_mono (1 + roundF32 (stdMax d 0 * s.mShadowStrength)) (1 + FLT_MAX)
      (by linarith) (by linarith)
    have e : roundF32 (1 + FLT_MAX) = FLT_MAX := by decide!
    rw [e] at this
    exact this
  have hafin : ¬ isInfinite (roundF32 (1 + roundF32 (stdMax d 0 * s.mShadowStrength))) := by
    rw [isInfinite_of_nonneg _ (by linarith)]
    unfold FLT_MAX at ha2
    intro hc
    linarith
  have hane : roundF32 (1 + roundF32 (stdMax d 0 * s.mShadowStrength)) ≠ 0 := by
    intro hc
    rw [hc] at ha1
    norm_num at ha1
  refine ⟨?_, ha1, ha2⟩
  unfold ShadowScale
  simp only [h, if_false, hafin, hane]

theorem shadowScale_anti (sA sB : cHeightMapShadow) (dA dB : ℚ)
    (h0 : 0 ≤ stdMax dA 0 * sA.mShadowStrength)
    (hle : stdMax dA 0 * sA.mShadowStrength ≤ stdMax dB 0 * sB.mShadowStrength) :
    ∃ rA rB, ShadowScale sA dA = some rA ∧ ShadowScale sB dB = some rB ∧ rB ≤ rA ∧ 0 ≤ rB := by
  have h0B : 0 ≤ stdMax dB 0 * sB.mShadowStrength := le_trans h0 hle
  have hP := roundF32_mono _ _ h0 hle
  have hPA0 := roundF32_nonneg _ h0
  have hPB0 := roundF32_nonneg _ h0B
  by_cases hB : isInfinite (roundF32 (stdMax dB 0 * sB.mShadowStrength))
  · by_cases hA : isInfinite (roundF32 (stdMax dA 0 * sA.mShadowStrength))
    · exact ⟨0, 0, shadowScale_of_infinite sA dA hA, shadowScale_of_infinite sB dB hB,
        le_rfl, le_rfl⟩
    · obtain ⟨hA1, hA2, _⟩ := shadowScale_of_finite sA dA h0 hA
      refine ⟨_, 0, hA1, shadowScale_of_infinite sB dB hB, ?_, le_rfl⟩
      apply roundF32_nonneg
      apply div_nonneg (by norm_num)
      linarith
  · have hA : ¬ isInfinite (roundF32 (stdMax dA 0 * sA.mShadowStrength)) := by
      rw [isInfinite_of_nonneg _ hPA0]
      rw [isInfinite_of_nonneg _ hPB0] at hB
      intro hc
      exact hB (le_trans hc hP)
    obtain ⟨hA1, hA2, _⟩ := shadowScale_of_finite sA dA h0 hA
    obtain ⟨hB1, hB2, _⟩ := shadowScale_of_finite sB dB h0B hB
    have ha := roundF32_mono (1 + roundF32 (stdMax dA 0 * sA.mShadowStrength))
      (1 + roundF32 (stdMax dB 0 * sB.mShadowStrength)) (by linarith) (by linarith)
    have hBpos : 0 ≤ 1 / roundF32 (1 + roundF32 (stdMax dB 0 * sB.mShadowStrength)) :=
      div_nonneg (by norm_num) (by linarith)
    refine ⟨_, _, hA1, hB1, ?_, roundF32_nonneg _ hBpos⟩
    apply roundF32_mono _ _ hBpos
    exact one_div_le_one_div_of_le (by linarith) ha

/-! ## Point queries -/

theorem truncInt_of_nonneg (f : ℚ) (h : 0 ≤ f) : truncInt f = ⌊f⌋ := by
  unfold truncInt
  rw [if_pos h]

theorem truncInt_bounds (f : ℚ) (n : ℕ) (h0 : 0 ≤ f) (h1 : f ≤ (n : ℚ) - 1) :
    0 ≤ truncInt f ∧ truncInt f < (n : Int) ∧ (truncInt f : ℚ) ≤ f ∧ f < (truncInt f : ℚ) + 1 := by
  rw [truncInt_of_nonneg f h0]
  refine ⟨Int.floor_nonneg.mpr h0, ?_, Int.floor_le f, Int.lt_floor_add_one f⟩
  have hle : ((⌊f⌋ : Int) : ℚ) ≤ (n : ℚ) - 1 := le_trans (Int.floor_le f) h1
  have hlt : ((⌊f⌋ : Int) : ℚ) < ((n : Int) : ℚ) := by
    push_cast
    linarith
  exact_mod_cast hlt

theorem locationIsInBounds_iff (s : cHeightMapShadow) (wn hn : ℕ) (hg : Grid s wn hn)
    (hwr : roundF32 ((wn : ℚ) - 1) = (wn : ℚ) - 1)
    (hhr : roundF32 ((hn : ℚ) - 1) = (hn : ℚ) - 1) (x y : ℚ) :
    LocationIsInBounds s x y = true ↔
      (0 ≤ roundF32 (x * s.mInvCellWidth) ∧ roundF32 (x * s.mInvCellWidth) ≤ (wn : ℚ) - 1) ∧
      (0 ≤ roundF32 (y * s.mInvCellWidth) ∧ roundF32 (y * s.mInvCellWidth) ≤ (hn : ℚ) - 1) := by
  have ew : ((s.mSamplesX - 1 : Int) : ℚ) = (wn : ℚ) - 1 := by rw [hg.1]; push_cast; rfl
  have eh : ((s.mSamplesY - 1 : Int) : ℚ) = (hn : ℚ) - 1 := by rw [hg.2.1]; push_cast; rfl
  unfold LocationIsInBounds
  simp only [ew, eh, hwr, hhr, Bool.and_eq_true, decide_eq_true_eq, ge_iff_le]
  constructor
  · rintro ⟨⟨⟨a, b⟩, c⟩, d⟩
    exact ⟨⟨a, c⟩, ⟨b, d⟩⟩
  · rintro ⟨⟨a, c⟩, ⟨b, d⟩⟩
    exact ⟨⟨⟨a, b⟩, c⟩, d⟩

/-! ## Response of the crest to a raised cell -/

/-- A cell that the analysis leaves `free` can gain depth over one height field and lose depth
over another.  On a 4 x 4 grid under the light `(1/2, -1, 1)` with the spike `(2, 0)` raised
from 10 to 20, the cell `(3, 2)` is `free`: two rows below the spike the extrapolated entry is
`1/2 * c[2] + c[3] - 1/2 * c[1]`, and all three entries depend on the spike.  Over terrain
that is 0 elsewhere its depth grows from 3 to 8; when the cells `(2, 1)` and `(3, 1)` have
height 9, which cuts off the two entries of positive weight, it falls from 21/2 to 8. -/
theorem free_cell_gains_or_loses :
    spikeInfl ((gridWith 4 4 1 (-1000)
      [0, 0, 10, 0, 0, 0, 0, 0, 0, 0, 0, 0, 0, 0, 0, 0]).getD cHeightMapShadow.construct)
      ⟨1 / 2, -1, 1⟩ 2 0 3 2 = Infl.free ∧
    ((gridWith 4 4 1 (-1000) [0, 0, 10, 0, 0, 0, 0, 0, 0, 0, 0, 0, 0, 0, 0, 0]).bind fun s =>
      (FindHeightMapShadows s ⟨1 / 2, -1, 1⟩).bind fun s => ShadowDepth s 3 2) = some 3 ∧
    ((gridWith 4 4 1 (-1000) [0, 0, 20, 0, 0, 0, 0, 0, 0, 0, 0, 0, 0, 0, 0, 0]).bind fun s =>
      (FindHeightMapShadows s ⟨1 / 2, -1, 1⟩).bind fun s => ShadowDepth s 3 2) = some 8 ∧
    ((gridWith 4 4 1 (-1000) [0, 0, 10, 0, 0, 0, 9, 9, 0, 0, 0, 0, 0, 0, 0, 0]).bind fun s =>
      (FindHeightMapShadows s ⟨1 / 2, -1, 1⟩).bind fun s => ShadowDepth s 3 2)
      = some (21 / 2) ∧
    ((gridWith 4 4 1 (-1000) [0, 0, 20, 0, 0, 0, 9, 9, 0, 0, 0, 0, 0, 0, 0, 0]).bind fun s =>
      (FindHeightMapShadows s ⟨1 / 2, -1, 1⟩).bind fun s => ShadowDepth s 3 2) = some 8 := by
  decide!

/-! ## The claims -/

/-- C2, counterexample: after an overhead sweep has set the empty flag and
`MakeShadowTestPattern` has rewritten the shadow map, a second overhead sweep leaves the
pattern in place: the last element is 1/4, not the sentinel -1000. -/
theorem C2_counterexample :
    ((SetDimensions cHeightMapShadow.construct 2 2 1 (-1000)).bind fun s =>
      (FindHeightMapShadows s ⟨0, 0, 1⟩).bind fun s =>
        (MakeShadowTestPattern s).bind fun s =>
          (FindHeightMapShadows s ⟨0, 0, 1⟩).map fun s => (s.mShadowMap, s.mMaxDepth))
      = some ([0, 0, 0, 1 / 4], -1000) := by
  decide!

/-- C2, amended: for every grid state whose empty flag is clear, or whose shadow map already
holds the sentinel everywhere, and every light whose vertical component is non-positive or
whose two horizontal components both have magnitude below 1e-3, after
`FindHeightMapShadows` every element of the shadow map equals `mMaxDepth`. -/
theorem C2_degenerate_light (s : cHeightMapShadow) (sunDir : Vec3f)
    (hlight : sunDir.z ≤ 0 ∨ (|sunDir.x| < 1 / 1000 ∧ |sunDir.y| < 1 / 1000))
    (hflag : s.mEmptyShadowMap = false ∨ ∀ v ∈ s.mShadowMap, v = s.mMaxDepth) :
    ∃ s2, FindHeightMapShadows s sunDir = some s2 ∧
      s2.mShadowMap.length = s.mShadowMap.length ∧ s2.mMaxDepth = s.mMaxDepth ∧
      ∀ v ∈ s2.mShadowMap, v = s2.mMaxDepth := by
  refine ⟨_, noShadow_clear s sunDir hlight, ?_⟩
  cases hf : s.mEmptyShadowMap with
  | false =>
    refine ⟨by simp [ClearShadowMap], by simp [ClearShadowMap], ?_⟩
    intro v hv
    simp only [Bool.not_false, if_true, ClearShadowMap] at hv ⊢
    exact List.eq_of_mem_replicate hv
  | true =>
    rcases hflag with h | h
    · rw [hf] at h; exact Bool.noConfusion h
    · refine ⟨by simp, by simp, ?_⟩
      intro v hv
      simp only [Bool.not_true] at hv ⊢
      exact h v hv

/-- C2, witness: a state with the empty flag clear whose shadow map holds `[1, 2, 3, 4]`, and
the overhead light `(0, 0, 1)`. -/
theorem C2_degenerate_light_witness :
    ∃ s2, FindHeightMapShadows
        { cHeightMapShadow.construct with mShadowMap := [1, 2, 3, 4] } ⟨0, 0, 1⟩ = some s2 ∧
      s2.mShadowMap.length = 4 ∧ s2.mMaxDepth = -1000 ∧
      ∀ v ∈ s2.mShadowMap, v = s2.mMaxDepth :=
  C2_degenerate_light { cHeightMapShadow.construct with mShadowMap := [1, 2, 3, 4] } ⟨0, 0, 1⟩
    (Or.inr (by decide!)) (Or.inl rfl)

/-- C3, at the failing input: a 3 x 3 grid of zero heights is swept with `(0, -1, 1)`, which
changes every cell and leaves the rectangle `(0, 0, 2, 2)`; two overhead sweeps `(0, 0, 1)`
follow.  After the second one the rectangle is still `(0, 0, 2, 2)`. -/
theorem C3_stale_rectangle :
    ((gridWith 3 3 1 (-1000) (List.replicate 9 0)).bind fun s =>
      (FindHeightMapShadows s ⟨0, -1, 1⟩).bind fun s =>
        (FindHeightMapShadows s ⟨0, 0, 1⟩).bind fun s =>
          (FindHeightMapShadows s ⟨0, 0, 1⟩).map fun s => s.mShadowUpdateRect)
      = some ⟨0, 0, 2, 2⟩ := by
  decide!

/-- C5, counterexample: on the 1-row grid `[0, 0, 10, 0, 0]` with light `(1, 0, 1/100)` the
column scan starts at index 4 and writes shadow 0 there (depth 0, not positive); the crest
shift that follows reads `mCrest[1]` and `mCrest[2]` of a crest of length 1, so the sweep has
no result. -/
theorem C5_counterexample :
    (columnParams { cHeightMapShadow.construct with mSamplesX := 5, mCellWidth := 1 }
        ⟨1, 0, 1 / 100⟩) = ⟨4, -1, -1 / 100, 0⟩ ∧
    (shadowLine [0, 0, 10, 0, 0] (-1 / 100) (fun y => 4 + y * 5) 1 0
        ⟨[-1000], List.replicate 5 (-1000), -1, 0⟩).map (fun ls => (ls.crest, ls.shadow))
      = some ([-1 / 100], [-1000, -1000, -1000, -1000, 0]) ∧
    shiftCrest 0 1 [-1 / 100] = none ∧
    ((gridWith 5 1 1 (-1000) [0, 0, 10, 0, 0]).bind fun s =>
      FindHeightMapShadows s ⟨1, 0, 1 / 100⟩) = none := by
  decide!

/-- C5, amended: on a grid of 3 rows and 5 columns with every row `[0, 0, 10, 0, 0]`, the light
`(1, 0, 1/100)` points towards a sun on the side of index 4: the shadow depth is positive at
index 0 and 1 and zero at index 3 and 4 of every row.  With the sun on the other side,
`(-1, 0, 1/100)`, it is positive at index 3 and 4 and zero at index 0 and 1.  (Each inner list
gives `ShadowDepth(x, y)` for `x = 0, 1, 3, 4` of one row `y`.) -/
theorem C5_spike_scenario :
    ((gridWith 5 3 1 (-1000) [0, 0, 10, 0, 0, 0, 0, 10, 0, 0, 0, 0, 10, 0, 0]).bind fun s =>
      (FindHeightMapShadows s ⟨1, 0, 1 / 100⟩).map fun s =>
        [0, 1, 2].map fun (y : Int) => [0, 1, 3, 4].map fun (x : Int) => ShadowDepth s x y)
      = some [[some (499 / 50), some (999 / 100), some 0, some 0],
              [some (499 / 50), some (999 / 100), some 0, some 0],
              [some (499 / 50), some (999 / 100), some 0, some 0]] ∧
    ((gridWith 5 3 1 (-1000) [0, 0, 10, 0, 0, 0, 0, 10, 0, 0, 0, 0, 10, 0, 0]).bind fun s =>
      (FindHeightMapShadows s ⟨-1, 0, 1 / 100⟩).map fun s =>
        [0, 1, 2].map fun (y : Int) => [0, 1, 3, 4].map fun (x : Int) => ShadowDepth s x y)
      = some [[some 0, some 0, some (999 / 100), some (499 / 50)],
              [some 0, some 0, some (999 / 100), some (499 / 50)],
              [some 0, some 0, some (999 / 100), some (499 / 50)]] := by
  decide!

/-- C6, at the failing input: a 4 x 4 grid of zero heights swept with `(0, 1, 1)`.  The rows
are scanned from 3 down to 0, every cell changes from -1000 to 0, and the rectangle that is
left has `top = 3` and `bottom = 0`. -/
theorem C6_reversed_rectangle :
    ((gridWith 4 4 1 (-1000) (List.replicate 16 0)).bind fun s =>
      (FindHeightMapShadows s ⟨0, 1, 1⟩).map fun s2 =>
        (s.mShadowMap, s2.mShadowMap, s2.mShadowUpdateRect))
      = some (List.replicate 16 (-1000), List.replicate 16 0, ⟨0, 3, 3, 0⟩) := by
  decide!

/-- C7, at the failing input: a 2 x 2 grid (`width = 2`, `height = 2`, cell width 1) swept with
`(0, -1, 1)`.  The crest has two entries; after the first row the crest shift (with
`crestOffset = 0`) extrapolates the first height from `mCrest[1]` and `mCrest[2]`, and
`mCrest[2]` is outside the crest. -/
theorem C7_out_of_range :
    ((gridWith 2 2 1 (-1000) [0, 0, 0, 0]).map fun s => (rowParams s ⟨0, -1, 1⟩).crestOffset)
      = some 0 ∧
    shiftDown 0 1 1 [-1, -1] = some [-1, -1] ∧
    rd [-1, -1] 2 = none ∧
    shiftCrest 0 2 [-1, -1] = none ∧
    ((gridWith 2 2 1 (-1000) [0, 0, 0, 0]).bind fun s =>
      FindHeightMapShadows s ⟨0, -1, 1⟩) = none := by
  decide!

/-- C8: for a light that passes the degenerate-light test of `FindHeightMapShadows` and a
positive cell width, the scan that is selected divides by a non-zero component of the light,
and after the scan direction has been normalised `crestDescent ≤ 0` and
`-1 ≤ crestOffset ≤ 1` (the two `CL_ASSERT`s). -/
theorem C8_scan_invariants (s : cHeightMapShadow) (sunDir : Vec3f)
    (_hcw : 0 < s.mCellWidth) (hnd : ¬ noShadow sunDir) :
    (rowScan sunDir →
      sunDir.y ≠ 0 ∧ (rowParams s sunDir).crestDescent ≤ 0 ∧
        -1 ≤ (rowParams s sunDir).crestOffset ∧ (rowParams s sunDir).crestOffset ≤ 1) ∧
    (¬ rowScan sunDir →
      sunDir.x ≠ 0 ∧ (columnParams s sunDir).crestDescent ≤ 0 ∧
        -1 ≤ (columnParams s sunDir).crestOffset ∧ (columnParams s sunDir).crestOffset ≤ 1) :=
  ⟨fun hr => ⟨(scan_divisor_ne_zero sunDir hnd).1 hr, rowParams_bounds s sunDir hnd hr⟩,
   fun hr => ⟨(scan_divisor_ne_zero sunDir hnd).2 hr, columnParams_bounds s sunDir hnd hr⟩⟩

/-- C8, witness: a light from the side, `(1/2, -1, 1)`, on a grid with cell width 1. -/
theorem C8_scan_invariants_witness :
    (0 : ℚ) < ({ cHeightMapShadow.construct with mCellWidth := 1 } : cHeightMapShadow).mCellWidth ∧
    ¬ noShadow ⟨1 / 2, -1, 1⟩ ∧
    (rowParams { cHeightMapShadow.construct with mCellWidth := 1 } ⟨1 / 2, -1, 1⟩).crestDescent ≤ 0 :=
  ⟨by decide!, by decide!,
    ((C8_scan_invariants { cHeightMapShadow.construct with mCellWidth := 1 } ⟨1 / 2, -1, 1⟩
      (by decide!) (by decide!)).1 (by decide!)).2.1⟩

/-- C9, counterexample: `SetDimensions` has no validation.  It succeeds with a negative cell
width (and stores it), and it succeeds with two negative sample counts. -/
theorem C9_counterexample :
    (SetDimensions cHeightMapShadow.construct 2 2 (-1) (-1000)).map
        (fun s => (s.mCellWidth, s.mShadowMap)) = some (-1, [-1000, -1000, -1000, -1000]) ∧
    (SetDimensions cHeightMapShadow.construct (-2) (-3) 1 (-1000)).map
        (fun s => (s.mSamplesX, s.mSamplesY, s.mShadowMap.length)) = some (-2, -3, 6) := by
  decide!

/-- C9, amended: `SetDimensions` has no validation and no `InvalidDimension` failure.
Whenever the element count `samplesX * samplesY` is a non-negative `int`, whatever the cell
width (zero and negative included) and whatever the signs of the two counts, the call returns,
and the state it leaves holds the arguments as they were given. -/
theorem C9_no_validation (s : cHeightMapShadow) (samplesX samplesY : Int)
    (cellWidth maxShadowDepth : ℚ)
    (hcount : 0 ≤ samplesX * samplesY ∧ samplesX * samplesY ≤ INT_MAX) :
    ∃ s2, SetDimensions s samplesX samplesY cellWidth maxShadowDepth = some s2 ∧
      s2.mSamplesX = samplesX ∧ s2.mSamplesY = samplesY ∧ s2.mCellWidth = cellWidth ∧
      s2.mMaxDepth = maxShadowDepth ∧
      s2.mHeightMap.length = (samplesX * samplesY).toNat ∧
      s2.mShadowMap.length = (samplesX * samplesY).toNat :=
  ⟨_, SetDimensions_eq s samplesX samplesY cellWidth maxShadowDepth hcount, rfl, rfl, rfl, rfl,
    List.length_replicate _ _, List.length_replicate _ _⟩

/-- C9, witness: a negative cell width together with two negative sample counts. -/
theorem C9_no_validation_witness :
    ∃ s2, SetDimensions cHeightMapShadow.construct (-2) (-3) (-1) (-1000) = some s2 ∧
      s2.mSamplesX = -2 ∧ s2.mSamplesY = -3 ∧ s2.mCellWidth = -1 ∧ s2.mShadowMap.length = 6 := by
  obtain ⟨s2, h1, h2, h3, h4, _, _, h7⟩ :=
    C9_no_validation cHeightMapShadow.construct (-2) (-3) (-1) (-1000) (by decide)
  exact ⟨s2, h1, h2, h3, h4, h7⟩

/-- C11, counterexample: a sweep over a 3 x 3 grid leaves the rectangle `(0, 0, 2, 2)`; the
`SetDimensions(4, 4, 1, -1000)` that follows does not touch it. -/
theorem C11_counterexample :
    ((gridWith 3 3 1 (-1000) (List.replicate 9 0)).bind fun s =>
      (FindHeightMapShadows s ⟨0, -1, 1⟩).bind fun s =>
        (SetDimensions s 4 4 1 (-1000)).map fun s => s.mShadowUpdateRect)
      = some ⟨0, 0, 2, 2⟩ := by
  decide!

/-- C11, amended: `SetDimensions` does not write the dirty rectangle.  Whenever it returns (the
element count is a non-negative `int`), `mShadowUpdateRect` is what it was before the call; it
is `(-1, -1, 0, 0)` afterwards when it was so before, as on a freshly constructed object. -/
theorem C11_rectangle_kept (s : cHeightMapShadow) (samplesX samplesY : Int)
    (cellWidth maxShadowDepth : ℚ)
    (hcount : 0 ≤ samplesX * samplesY ∧ samplesX * samplesY ≤ INT_MAX) :
    ∃ s2, SetDimensions s samplesX samplesY cellWidth maxShadowDepth = some s2 ∧
      s2.mShadowUpdateRect = s.mShadowUpdateRect ∧
      (s.mShadowUpdateRect = ⟨-1, -1, 0, 0⟩ → s2.mShadowUpdateRect = ⟨-1, -1, 0, 0⟩) :=
  ⟨_, SetDimensions_eq s samplesX samplesY cellWidth maxShadowDepth hcount, rfl, fun h => h⟩

/-- C11, witness: `SetDimensions(4, 4, 1, -1000)` on a freshly constructed object. -/
theorem C11_rectangle_kept_witness :
    ∃ s2, SetDimensions cHeightMapShadow.construct 4 4 1 (-1000) = some s2 ∧
      s2.mShadowUpdateRect = ⟨-1, -1, 0, 0⟩ := by
  obtain ⟨s2, h1, _, h3⟩ :=
    C11_rectangle_kept cHeightMapShadow.construct 4 4 1 (-1000) (by decide)
  exact ⟨s2, h1, h3 rfl⟩

/-- C12, at the failing input: a 3 x 3 grid with sentinel `mMaxDepth = -1000` whose heights are
all -2000, swept with the light `(0, -1, 1)`.  The second and third row of the shadow map are
left at -1001 and -1002, below `mMaxDepth`. -/
theorem C12_below_minimum :
    ((gridWith 3 3 1 (-1000) (List.replicate 9 (-2000))).bind fun s =>
      (FindHeightMapShadows s ⟨0, -1, 1⟩).map fun s => (s.mMaxDepth, s.mShadowMap))
      = some (-1000, [-1000, -1000, -1000, -1001, -1001, -1001, -1002, -1002, -1002]) := by
  decide!

/-- C13, counterexample: with shadow strength `1e30f` and depth `1e30f` the product overflows
to infinity and `ShadowScale` returns 0, which is outside `(0, 1]`. -/
theorem C13_counterexample :
    roundF32 (10 ^ 30) = 1000000015047466219876688855040 ∧
    ShadowScale { cHeightMapShadow.construct with
        mShadowStrength := 1000000015047466219876688855040 }
      1000000015047466219876688855040 = some 0 := by
  decide!

/-- C13, amended: for every shadow strength > 0 and every depth, `ShadowScale(depth)` is 1
whenever `depth ≤ 0`; whenever the `float` product `max(depth, 0) * shadowStrength` does not
overflow, `ShadowScale(depth)` is `1 / (1 + max(depth, 0) * shadowStrength)` evaluated in
`float` arithmetic and lies in the half-open interval (0, 1]; when the product overflows it
is 0. -/
theorem C13_shadowScale_range (s : cHeightMapShadow) (depth : ℚ)
    (hs : 0 < s.mShadowStrength) :
    (depth ≤ 0 → ShadowScale s depth = some 1) ∧
    (¬ isInfinite (roundF32 (max depth 0 * s.mShadowStrength)) →
      ∃ r, ShadowScale s depth = some r ∧
        r = roundF32 (1 / roundF32 (1 + roundF32 (max depth 0 * s.mShadowStrength))) ∧
        0 < r ∧ r ≤ 1) ∧
    (isInfinite (roundF32 (max depth 0 * s.mShadowStrength)) →
      ShadowScale s depth = some 0) := by
  have hq0 : 0 ≤ stdMax depth 0 * s.mShadowStrength := by
    rw [stdMax_eq_max]
    exact mul_nonneg (le_max_right _ _) (le_of_lt hs)
  refine ⟨?_, ?_, ?_⟩
  · intro hd
    have hm : stdMax depth 0 = 0 := by rw [stdMax_eq_max]; exact max_eq_right hd
    have hfin : ¬ isInfinite (roundF32 (stdMax depth 0 * s.mShadowStrength)) := by
      rw [hm, zero_mul, roundF32_zero]
      decide!
    rw [(shadowScale_of_finite s depth hq0 hfin).1, hm, zero_mul, roundF32_zero, add_zero,
      roundF32_one, div_one, roundF32_one]
  · intro hfin
    rw [← stdMax_eq_max] at hfin ⊢
    obtain ⟨h1, h2, h3⟩ := shadowScale_of_finite s depth hq0 hfin
    refine ⟨_, h1, rfl, ?_, ?_⟩
    · have hlow : (1 : ℚ) / 340282366920938463463374607431768211456 ≤
          1 / roundF32 (1 + roundF32 (stdMax depth 0 * s.mShadowStrength)) := by
        apply one_div_le_one_div_of_le (by linarith)
        unfold FLT_MAX at h3
        linarith
      have := roundF32_mono _ _ (by norm_num) hlow
      have e : roundF32 (1 / 340282366920938463463374607431768211456)
          = 1 / 340282366920938463463374607431768211456 := by decide!
      rw [e] at this
      have hp : (0 : ℚ) < 1 / 340282366920938463463374607431768211456 := by norm_num
      linarith
    · have hle : 1 / roundF32 (1 + roundF32 (stdMax depth 0 * s.mShadowStrength)) ≤ 1 := by
        rw [div_le_one (by linarith)]
        exact h2
      have := roundF32_mono _ _ (div_nonneg (by norm_num) (by linarith)) hle
      rw [roundF32_one] at this
      exact this
  · intro hinf
    rw [← stdMax_eq_max] at hinf
    exact shadowScale_of_infinite s depth hinf

/-- C13, witness: the default shadow strength 1 and depth 3 give `ShadowScale = 1/4`. -/
theorem C13_shadowScale_range_witness :
    (0 : ℚ) < cHeightMapShadow.construct.mShadowStrength ∧
    ShadowScale cHeightMapShadow.construct 3 = some (1 / 4) ∧
    ShadowScale cHeightMapShadow.construct (-2) = some 1 := by
  have h := C13_shadowScale_range cHeightMapShadow.construct 3 (by decide!)
  have h2 := C13_shadowScale_range cHeightMapShadow.construct (-2) (by decide!)
  obtain ⟨r, hr, hval, _, _⟩ := h.2.1 (by decide!)
  refine ⟨by decide!, ?_, h2.1 (by norm_num)⟩
  rw [hr, hval]
  decide!

/-- C14, counterexample: with shadow strength 1 the depths `1e-8f < 2e-8f` both give
`ShadowScale = 1`, because `1 + depth` rounds to 1; and for the depth `1e-8f` the strengths
`1 < 2` both give 1.  Under a strength of `1e30f` the depths `1e30f < 2e30f` both give 0. -/
theorem C14_counterexample :
    roundF32 (1 / 10 ^ 8) = 11258999 / 1125899906842624 ∧
    roundF32 (2 / 10 ^ 8) = 11258999 / 562949953421312 ∧
    ShadowScale cHeightMapShadow.construct (11258999 / 1125899906842624) = some 1 ∧
    ShadowScale cHeightMapShadow.construct (11258999 / 562949953421312) = some 1 ∧
    ShadowScale { cHeightMapShadow.construct with mShadowStrength := 2 }
      (11258999 / 1125899906842624) = some 1 ∧
    ShadowScale { cHeightMapShadow.construct with
        mShadowStrength := 1000000015047466219876688855040 }
      1000000015047466219876688855040 = some 0 ∧
    ShadowScale { cHeightMapShadow.construct with
        mShadowStrength := 1000000015047466219876688855040 }
      2000000030094932439753377710080 = some 0 := by
  decide!

/-- C14, amended: `ShadowScale(0) = 1`; for every shadow strength > 0 and all depths
`0 < d1 < d2`, `ShadowScale(d2) ≤ ShadowScale(d1)`; and for every depth `d > 0` and strengths
`0 < s1 < s2`, `ShadowScale` computed with strength `s2` is at most `ShadowScale` computed
with strength `s1`. -/
theorem C14_shadowScale_monotone (s : cHeightMapShadow) :
    ShadowScale s 0 = some 1 ∧
    (∀ d1 d2 : ℚ, 0 < s.mShadowStrength → 0 < d1 → d1 < d2 →
      ∃ r1 r2, ShadowScale s d1 = some r1 ∧ ShadowScale s d2 = some r2 ∧ r2 ≤ r1) ∧
    (∀ d s1 s2 : ℚ, 0 < d → 0 < s1 → s1 < s2 →
      ∃ r1 r2, ShadowScale { s with mShadowStrength := s1 } d = some r1 ∧
        ShadowScale { s with mShadowStrength := s2 } d = some r2 ∧ r2 ≤ r1) := by
  refine ⟨?_, ?_, ?_⟩
  · have hm : stdMax (0 : ℚ) 0 = 0 := by decide!
    have hq0 : 0 ≤ stdMax 0 0 * s.mShadowStrength := by rw [hm, zero_mul]
    have hfin : ¬ isInfinite (roundF32 (stdMax 0 0 * s.mShadowStrength)) := by
      rw [hm, zero_mul, roundF32_zero]
      decide!
    rw [(shadowScale_of_finite s 0 hq0 hfin).1, hm, zero_mul, roundF32_zero, add_zero,
      roundF32_one, div_one, roundF32_one]
  · intro d1 d2 hs hd1 hd12
    have e1 : stdMax d1 0 = d1 := by rw [stdMax_eq_max]; exact max_eq_left (le_of_lt hd1)
    have e2 : stdMax d2 0 = d2 := by
      rw [stdMax_eq_max]; exact max_eq_left (le_of_lt (lt_trans hd1 hd12))
    obtain ⟨r1, r2, h1, h2, h3, _⟩ := shadowScale_anti s s d1 d2
      (by rw [e1]; exact mul_nonneg (le_of_lt hd1) (le_of_lt hs))
      (by rw [e1, e2]; exact mul_le_mul_of_nonneg_right (le_of_lt hd12) (le_of_lt hs))
    exact ⟨r1, r2, h1, h2, h3⟩
  · intro d s1 s2 hd hs1 hs12
    have e1 : stdMax d 0 = d := by rw [stdMax_eq_max]; exact max_eq_left (le_of_lt hd)
    obtain ⟨r1, r2, h1, h2, h3, _⟩ := shadowScale_anti { s with mShadowStrength := s1 }
      { s with mShadowStrength := s2 } d d
      (by rw [e1]; exact mul_nonneg (le_of_lt hd) (le_of_lt hs1))
      (by rw [e1]; exact mul_le_mul_of_nonneg_left (le_of_lt hs12) (le_of_lt hd))
    exact ⟨r1, r2, h1, h2, h3⟩

/-- C14, witness: with the default strength 1, `ShadowScale(3) = 1/4` is at most
`ShadowScale(1) = 1/2`. -/
theorem C14_shadowScale_monotone_witness :
    ∃ r1 r2, ShadowScale cHeightMapShadow.construct 1 = some r1 ∧
      ShadowScale cHeightMapShadow.construct 3 = some r2 ∧ r2 ≤ r1 :=
  (C14_shadowScale_monotone cHeightMapShadow.construct).2.1 1 3 (by decide!) (by norm_num)
    (by norm_num)

/-- C16: whatever the grid state and the light direction (degenerate or not), a call of
`FindHeightMapShadows` that returns leaves the height map, `mSamplesX`, `mSamplesY`,
`mCellWidth`, `mInvCellWidth`, `mMaxDepth` and `mShadowStrength` unchanged: the state
afterwards is the state before with only the shadow map, the crest, the empty flag and the
dirty rectangle replaced.  The call does return under every degenerate light and on every
`w x h` grid with `w, h ≥ 3`. -/
theorem C16_sweep_frame (s : cHeightMapShadow) (sunDir : Vec3f) :
    (∀ s2, FindHeightMapShadows s sunDir = some s2 →
      (∃ sh cr fl r, s2 = { s with
        mShadowMap := sh, mCrest := cr, mEmptyShadowMap := fl, mShadowUpdateRect := r }) ∧
      s2.mHeightMap = s.mHeightMap ∧ s2.mSamplesX = s.mSamplesX ∧
      s2.mSamplesY = s.mSamplesY ∧ s2.mCellWidth = s.mCellWidth ∧
      s2.mInvCellWidth = s.mInvCellWidth ∧ s2.mMaxDepth = s.mMaxDepth ∧
      s2.mShadowStrength = s.mShadowStrength) ∧
    ((noShadow sunDir ∨ ∃ wn hn, 3 ≤ wn ∧ 3 ≤ hn ∧ Grid s wn hn) →
      ∃ s2, FindHeightMapShadows s sunDir = some s2) := by
  constructor
  · intro s2 hrun
    obtain ⟨sh, cr, fl, r, h⟩ := sweep_frame s s2 sunDir hrun
    refine ⟨⟨sh, cr, fl, r, h⟩, ?_, ?_, ?_, ?_, ?_, ?_, ?_⟩ <;> rw [h]
  · intro hcase
    by_cases hns : noShadow sunDir
    · exact ⟨_, noShadow_clear s sunDir hns⟩
    · rcases hcase with h | ⟨wn, hn, hw, hh, hg⟩
      · exact absurd h hns
      · obtain ⟨sh, cr, r, hrun, _, _⟩ :=
          sweep_spec s sunDir wn hn (lineLen_ge_three s sunDir wn hn hw hh hg) hg hns
        exact ⟨_, hrun⟩

/-- C16, witness: a 3 x 3 grid with a spike, swept with the light `(1/2, -1, 1)`. -/
theorem C16_sweep_frame_witness :
    ∃ s2, FindHeightMapShadows
        ((gridWith 3 3 1 (-1000) [10, 0, 0, 0, 0, 0, 0, 0, 0]).getD cHeightMapShadow.construct)
        ⟨1 / 2, -1, 1⟩ = some s2 ∧
      s2.mHeightMap = [10, 0, 0, 0, 0, 0, 0, 0, 0] ∧ s2.mSamplesX = 3 ∧ s2.mSamplesY = 3 ∧
      s2.mCellWidth = 1 ∧ s2.mMaxDepth = -1000 := by
  obtain ⟨s2, hs2⟩ := (C16_sweep_frame
    ((gridWith 3 3 1 (-1000) [10, 0, 0, 0, 0, 0, 0, 0, 0]).getD cHeightMapShadow.construct)
    ⟨1 / 2, -1, 1⟩).2 (Or.inr ⟨3, 3, by decide, by decide, by decide!⟩)
  obtain ⟨_, h1, h2, h3, h4, _, h6, _⟩ := (C16_sweep_frame _ _).1 s2 hs2
  refine ⟨s2, hs2, ?_, ?_, ?_, ?_, ?_⟩
  · rw [h1]; decide!
  · rw [h2]; decide!
  · rw [h3]; decide!
  · rw [h4]; decide!
  · rw [h6]; decide!

/-- C17, counterexample: (a) a grid of 10 x 1 cells of width `0.1f`, whose reciprocal, computed
in `float`, is 10; this is the value of `mInvCellWidth` that the code stores, and it is put
into the state as such.  For the point `(0.5, 0)` the bounds check is true and
`trunc(x / cellWidth) = 4`, but `ShadowDepth(point)` reads cell 5, because
`0.5 * mInvCellWidth = 5`.  (b) With `mSamplesX = 16777220` the bound `mSamplesX - 1` converts
to the `float` 16777220, so the point `x = 16777220` passes the bounds check although its cell
`16777220` is not below the width. -/
theorem C17_counterexample :
    roundF32 (1 / 10) = 13421773 / 134217728 ∧
    roundF32 (1 / (13421773 / 134217728)) = 10 ∧
    ((gridWith 10 1 (13421773 / 134217728) (-1000) [0, 1, 2, 3, 4, 5, 6, 7, 8, 9]).map fun s =>
      (LocationIsInBounds { s with mInvCellWidth := 10 } (1 / 2) 0,
        truncInt ((1 / 2) / s.mCellWidth),
        ShadowDepthAt { s with mInvCellWidth := 10 } ⟨1 / 2, 0⟩,
        ShadowDepth { s with mInvCellWidth := 10 } 4 0,
        ShadowDepth { s with mInvCellWidth := 10 } 5 0))
      = some (true, 4, some (-1005), some (-1004), some (-1005)) ∧
    LocationIsInBounds { cHeightMapShadow.construct with
        mSamplesX := 16777220, mSamplesY := 1, mCellWidth := 1, mInvCellWidth := 1 }
      16777220 0 = true ∧
    truncInt (roundF32 (16777220 * 1)) = 16777220 := by
  decide!

/-- C17, amended: write `cx`, `cy` for the `float` products `x * mInvCellWidth`,
`y * mInvCellWidth` with the stored reciprocal (whatever its value).  On a `width x height`
grid whose bounds `width - 1` and `height - 1` are exactly representable as `float`,
`LocationIsInBounds(x, y)` is true iff `0 ≤ cx ≤ width - 1` and `0 ≤ cy ≤ height - 1`; and for
every point for which it is true, the cell `(vx, vy) = (trunc(cx), trunc(cy))` satisfies
`vx ≤ cx < vx + 1`, `vy ≤ cy < vy + 1`, lies in `[0, width) x [0, height)`, its flat index is
below `width * height`, and `ShadowDepth(point)` equals `ShadowDepth` of that integer cell, the
shadow map minus the height map at that index. -/
theorem C17_point_query (s : cHeightMapShadow) (wn hn : ℕ) (hg : Grid s wn hn)
    (hwr : roundF32 ((wn : ℚ) - 1) = (wn : ℚ) - 1)
    (hhr : roundF32 ((hn : ℚ) - 1) = (hn : ℚ) - 1) (x y : ℚ) :
    (LocationIsInBounds s x y = true ↔
      (0 ≤ roundF32 (x * s.mInvCellWidth) ∧ roundF32 (x * s.mInvCellWidth) ≤ (wn : ℚ) - 1) ∧
      (0 ≤ roundF32 (y * s.mInvCellWidth) ∧ roundF32 (y * s.mInvCellWidth) ≤ (hn : ℚ) - 1)) ∧
    (LocationIsInBounds s x y = true →
      ∃ vx vy : ℕ, truncInt (roundF32 (x * s.mInvCellWidth)) = (vx : Int) ∧
        truncInt (roundF32 (y * s.mInvCellWidth)) = (vy : Int) ∧
        (vx : ℚ) ≤ roundF32 (x * s.mInvCellWidth) ∧
        roundF32 (x * s.mInvCellWidth) < (vx : ℚ) + 1 ∧
        (vy : ℚ) ≤ roundF32 (y * s.mInvCellWidth) ∧
        roundF32 (y * s.mInvCellWidth) < (vy : ℚ) + 1 ∧
        vx < wn ∧ vy < hn ∧ vx + vy * wn < wn * hn ∧
        ShadowDepthAt s ⟨x, y⟩ = ShadowDepth s vx vy ∧
        ShadowDepthAt s ⟨x, y⟩ =
          some (s.mShadowMap.getD (vx + vy * wn) 0 - s.mHeightMap.getD (vx + vy * wn) 0)) := by
  have hiff := locationIsInBounds_iff s wn hn hg hwr hhr x y
  refine ⟨hiff, ?_⟩
  intro hin
  obtain ⟨⟨hx0, hx1⟩, ⟨hy0, hy1⟩⟩ := hiff.mp hin
  obtain ⟨hvx0, hvx1, hvx2, hvx3⟩ := truncInt_bounds _ wn hx0 hx1
  obtain ⟨hvy0, hvy1, hvy2, hvy3⟩ := truncInt_bounds _ hn hy0 hy1
  generalize hcx : roundF32 (x * s.mInvCellWidth) = cx at *
  generalize hcy : roundF32 (y * s.mInvCellWidth) = cy at *
  have hnx : (truncInt cx).toNat < wn := by omega
  have hny : (truncInt cy).toNat < hn := by omega
  have hcx2 : truncInt cx = ((truncInt cx).toNat : Int) := (Int.toNat_of_nonneg hvx0).symm
  have hcy2 : truncInt cy = ((truncInt cy).toNat : Int) := (Int.toNat_of_nonneg hvy0).symm
  have hqx : (((truncInt cx).toNat : ℕ) : ℚ) = ((truncInt cx : Int) : ℚ) := by
    rw [← Int.cast_natCast, Int.toNat_of_nonneg hvx0]
  have hqy : (((truncInt cy).toNat : ℕ) : ℚ) = ((truncInt cy : Int) : ℚ) := by
    rw [← Int.cast_natCast, Int.toNat_of_nonneg hvy0]
  have hpt : ShadowDepthAt s ⟨x, y⟩ =
      ShadowDepth s ((truncInt cx).toNat : Int) ((truncInt cy).toNat : Int) := by
    rw [← hcx2, ← hcy2]
    unfold ShadowDepthAt ShadowDepth
    simp only [hcx, hcy]
  refine ⟨_, _, hcx2, hcy2, ?_, ?_, ?_, ?_, hnx, hny, ?_, hpt, ?_⟩
  · rw [hqx]; exact hvx2
  · rw [hqx]; exact hvx3
  · rw [hqy]; exact hvy2
  · rw [hqy]; exact hvy3
  · rw [Nat.add_comm]; exact idx_lt wn hn _ _ hny hnx
  · rw [hpt, ShadowDepth_eq s wn hn hg _ _ hnx hny, Nat.add_comm]

/-- C17, witness: a 4 x 3 grid with cell width 2 and the point `(5, 3)`: the products are
`5/2` and `3/2`, and the point lies in the cell `(2, 1)`. -/
theorem C17_point_query_witness :
    LocationIsInBounds
      ((gridWith 4 3 2 (-1000) (List.replicate 12 0)).getD cHeightMapShadow.construct) 5 3
      = true ∧
    ShadowDepthAt
        ((gridWith 4 3 2 (-1000) (List.replicate 12 0)).getD cHeightMapShadow.construct) ⟨5, 3⟩
      = ShadowDepth
        ((gridWith 4 3 2 (-1000) (List.replicate 12 0)).getD cHeightMapShadow.construct) 2 1 := by
  have hin : LocationIsInBounds
      ((gridWith 4 3 2 (-1000) (List.replicate 12 0)).getD cHeightMapShadow.construct) 5 3
      = true := by decide!
  obtain ⟨vx, vy, h1, h2, _, _, _, _, _, _, _, h6, _⟩ := (C17_point_query
    ((gridWith 4 3 2 (-1000) (List.replicate 12 0)).getD cHeightMapShadow.construct) 4 3
    (by decide!) (by decide!) (by decide!) 5 3).2 hin
  have e1 : truncInt (roundF32 (5 * ((gridWith 4 3 2 (-1000) (List.replicate 12 0)).getD
      cHeightMapShadow.construct).mInvCellWidth)) = 2 := by decide!
  have e2 : truncInt (roundF32 (3 * ((gridWith 4 3 2 (-1000) (List.replicate 12 0)).getD
      cHeightMapShadow.construct).mInvCellWidth)) = 1 := by decide!
  rw [e1] at h1
  rw [e2] at h2
  have hvx : vx = 2 := by exact_mod_cast h1.symm
  have hvy : vy = 1 := by exact_mod_cast h2.symm
  rw [hvx, hvy] at h6
  exact ⟨hin, h6⟩

/-- C18: for a crest `c` of length `n ≥ 3` and an offset `t` in `[-1, 1]`, the in-place shift
returns a crest `c2` of the same length.  If `t > 0`, `c2[i] = (1 - t) * c[i] + t * c[i + 1]`
for all `i < n - 1` and `c2[n - 1] = 2 * c2[n - 2] - c2[n - 3]`; if `t ≤ 0`,
`c2[i] = (1 + t) * c[i] - t * c[i - 1]` for all `i > 0` and `c2[0] = 2 * c2[1] - c2[2]`.  Every
interpolated entry is given by entries of the crest before the pass. -/
theorem C18_shift_refines (t : ℚ) (n : ℕ) (c : List ℚ) (hn : 3 ≤ n) (hc : c.length = n)
    (_ht : -1 ≤ t ∧ t ≤ 1) :
    ∃ c2, shiftCrest t (n : Int) c = some c2 ∧ c2.length = n ∧
      (t > 0 →
        (∀ i, i < n - 1 → c2.getD i 0 = (1 - t) * c.getD i 0 + t * c.getD (i + 1) 0) ∧
        c2.getD (n - 1) 0 = 2 * c2.getD (n - 2) 0 - c2.getD (n - 3) 0) ∧
      (t ≤ 0 →
        (∀ i, 0 < i → i < n → c2.getD i 0 = (1 + t) * c.getD i 0 - t * c.getD (i - 1) 0) ∧
        c2.getD 0 0 = 2 * c2.getD 1 0 - c2.getD 2 0) := by
  refine ⟨shiftP t c, shiftCrest_eq t n c hn hc, by rw [shiftP_length, hc], ?_, ?_⟩
  · intro htp
    have hval : ∀ j, j < n → (shiftP t c).getD j 0 =
        if j + 1 < c.length then lerp (c.getD j 0) (c.getD (j + 1) 0) t
        else 2 * lerp (c.getD (c.length - 2) 0) (c.getD (c.length - 1) 0) t
          - lerp (c.getD (c.length - 3) 0) (c.getD (c.length - 2) 0) t := by
      intro j hj
      unfold shiftP
      rw [if_pos htp, mkBuf_getD _ _ _ (by rw [hc]; exact hj)]
    constructor
    · intro i hi
      rw [hval i (by omega), if_pos (by omega)]
      rfl
    · rw [hval (n - 1) (by omega), hval (n - 2) (by omega), hval (n - 3) (by omega),
        if_neg (by omega), if_pos (by omega), if_pos (by omega), hc]
      have e1 : n - 2 + 1 = n - 1 := by omega
      have e2 : n - 3 + 1 = n - 2 := by omega
      rw [e1, e2]
  · intro htn
    have htp : ¬ t > 0 := not_lt.mpr htn
    have hval : ∀ j, j < n → (shiftP t c).getD j 0 =
        if 0 < j then lerp (c.getD j 0) (c.getD (j - 1) 0) (-t)
        else 2 * lerp (c.getD 1 0) (c.getD 0 0) (-t) - lerp (c.getD 2 0) (c.getD 1 0) (-t) := by
      intro j hj
      unfold shiftP
      rw [if_neg htp, mkBuf_getD _ _ _ (by rw [hc]; exact hj)]
    constructor
    · intro i hi0 hi
      rw [hval i hi, if_pos hi0]
      unfold lerp
      ring
    · rw [hval 0 (by omega), hval 1 (by omega), hval 2 (by omega),
        if_neg (by omega), if_pos (by omega), if_pos (by omega)]

/-- C18, witness: the crest `[0, 4, 8, 6]` shifted by `1/2` becomes `[2, 6, 7, 8]`. -/
theorem C18_shift_refines_witness :
    shiftCrest (1 / 2) 4 [0, 4, 8, 6] = some [2, 6, 7, 8] ∧
    ∃ c2, shiftCrest (1 / 2) ((4 : ℕ) : Int) [0, 4, 8, 6] = some c2 ∧ c2.length = 4 ∧
      c2.getD 0 0 = (1 - 1 / 2) * 0 + 1 / 2 * 4 := by
  obtain ⟨c2, h1, h2, h3, _⟩ := C18_shift_refines (1 / 2) 4 [0, 4, 8, 6] (by decide) rfl
    ⟨by norm_num, by norm_num⟩
  refine ⟨by decide!, c2, h1, h2, ?_⟩
  have := (h3 (by norm_num)).1 0 (by decide)
  rw [this]
  decide!

end HMS
